import Mathlib

/-!
# Verification of the Snuba adaptive split execution engine

Shallow embedding of `snuba/web/split.py` and of the time-split part of
`snuba/datasets/plans/split.py` (the storage query split strategies), together
with proofs about the split algorithms.

Modelling conventions:
* Datetimes are integers (seconds); `datetime.isoformat` and
  `util.parse_datetime` translate between a timestamp string and its integer
  value, so in the embedding they are the identity (composed with the
  configured alignment).  Timestamp condition literals therefore carry the
  integer directly.
* Python mutation of a `Request` by the runner is modelled by explicit state
  passing: a runner exposes the response it computes from the request value it
  receives (`resp`) and the value it leaves in the object it was handed
  (`mutate`).  Each strategy's outcome records the final value of the *original*
  `Request` object (`finalReq`) and the sequence of request values handed to
  the runner (`calls` / the per-iteration trace).
* The `while` loop of the time split is written with explicit fuel; the
  strategy runs it with fuel `(to_date - from_date).toNat + 1`, which is proved
  sufficient (the loop condition is false in the final state).
-/

/-- A condition literal: either a timestamp (`isoformat` string, modelled as the
integer number of seconds it denotes) or a list of integers (an `IN` list of
ids / project ids). -/
inductive Lit where
  | time (t : Int)
  | ints (l : List Int)
  deriving DecidableEq, Repr

/-- One entry of a query's `conditions` list: either a flat condition
`[field, operand, literal]` (for which `util.is_condition` is true) or a
nested boolean tree of conditions, kept opaque except for the columns it
references (`util.is_condition` is false on it and every rewrite passes it
through unchanged). -/
inductive Cond where
  | flat (field : String) (op : String) (lit : Lit)
  | nested (cols : List String)
  deriving DecidableEq, Repr

/-- Modelled from the spec: `util.is_condition` — true exactly on a flat
`[field, operand, literal]` condition. -/
def isCondition : Cond → Bool
  | .flat _ _ _ => true
  | .nested _ => false

/-- Modelled from the spec (`snuba.query.query.Query` is outside the covered
sources): the logical request body with selected columns, conditions,
group by, aggregations, order by, limit and offset. -/
structure Query where
  selectedColumns : Option (List String)
  conditions : Option (List Cond)
  groupby : List String
  aggregations : List String
  orderby : List String
  limit : Option Nat
  offset : Nat
  deriving DecidableEq, Repr

def Query.getConditions (q : Query) : List Cond :=
  q.conditions.getD []

def Query.setConditions (q : Query) (cs : List Cond) : Query :=
  { q with conditions := some cs }

/-- Modelled from the spec: `Query.add_conditions` appends to the condition
list. -/
def Query.addConditions (q : Query) (cs : List Cond) : Query :=
  { q with conditions := some (q.getConditions ++ cs) }

def Query.setSelectedColumns (q : Query) (cols : List String) : Query :=
  { q with selectedColumns := some cols }

def Query.setOffset (q : Query) (o : Nat) : Query :=
  { q with offset := o }

def Query.setLimit (q : Query) (l : Nat) : Query :=
  { q with limit := some l }

/-- An order-by entry `"-col"` denotes column `col` descending; strip the sign
to obtain the referenced column. -/
def stripOrderSign (s : String) : String :=
  match s.data with
  | '-' :: rest => String.mk rest
  | _ => s

/-- Columns referenced by one condition entry. -/
def Cond.referencedCols : Cond → List String
  | .flat f _ _ => [f]
  | .nested cols => cols

/-- Modelled from the spec: `Query.get_all_referenced_columns` — the derived
set of all columns referenced anywhere in the query (selected columns,
condition columns, group by, order by, aggregations), without duplicates. -/
def Query.getAllReferencedColumns (q : Query) : List String :=
  ((q.selectedColumns.getD []) ++ (q.getConditions.flatMap Cond.referencedCols)
    ++ q.groupby ++ (q.orderby.map stripOrderSign) ++ q.aggregations).dedup

/-- Modelled from the spec (`snuba.request.Request` is outside the covered
sources): a query plus its side-channel extensions — the `timeseries`
extension (`from_date` / `to_date`, datetimes modelled as integers) and the
`project` extension (list of project ids). -/
structure Request where
  query : Query
  extFromDate : Int
  extToDate : Int
  extProject : List Int
  deriving DecidableEq, Repr

/-- The response envelope `RawQueryResult`: rows of data. A row is modelled by
the three columns the split strategies inspect (id, project, timestamp) —
the algorithms never read any other column of a row. -/
structure Row where
  eventId : Int
  projectId : Int
  timestamp : Int
  deriving DecidableEq, Repr

structure RawQueryResult where
  data : List Row
  deriving DecidableEq, Repr

/-- A `QueryRunner`. The Python runner receives the request object and may
mutate it while computing the response; `resp` gives the response computed
from the value the runner receives and `mutate` the value it leaves behind in
the object it was handed. -/
structure Runner where
  resp : Request → RawQueryResult
  mutate : Request → Request

/-- The runtime configuration read through `state.get_configs`
(`use_split`, `date_align_seconds`, `split_step`), with the unset defaults
`(0, 1, 3600)` already substituted. -/
structure Config where
  useSplit : Int
  dateAlignSeconds : Int
  splitStep : Int
  deriving DecidableEq, Repr

/-- `STEP_GROWTH` from `snuba/web/split.py`. -/
def STEP_GROWTH : Int := 10

/-- Modelled from the spec: `util.parse_datetime` with an alignment — the
datetime (integer seconds) rounded down to a multiple of `align` when the
alignment is at least one. For the default alignment 1 it is the identity. -/
def alignTs (align t : Int) : Int :=
  if 1 ≤ align then align * (t / align) else t

/-- Parse a condition literal as a datetime (fails on an `IN`-list literal,
where Python `parse_datetime` would raise). -/
def parseDatetimeLit (align : Int) : Lit → Option Int
  | .time t => some (alignTs align t)
  | .ints _ => none

/-- Python `datetime.min` (0001-01-01) in seconds relative to the epoch:
subtracting a `timedelta` that lands below this raises `OverflowError`. -/
def pyDatetimeMin : Int := -62135596800

/-- `t - timedelta(seconds := step)` in Python datetime arithmetic: `none`
models the `OverflowError` raised when the result falls below
`datetime.min`. -/
def pyDatetimeSub (t step : Int) : Option Int :=
  if t - step < pyDatetimeMin then none else some (t - step)

/-- The incremental offset trimming step shared by both time-split loops:
while an offset remains and data exists, trim
`min(remaining_offset, len(data))` rows from the front and decrease the
remaining offset accordingly. Returns the trimmed data and the new
remaining offset. -/
def trimOffset (ro : Nat) (merged : List Row) : List Row × Nat :=
  if 0 < ro && 0 < merged.length then
    let toTrim := min ro merged.length
    (merged.drop toTrim, ro - toTrim)
  else (merged, ro)

/-- The window growth rule shared by both time-split loops: grow by
`STEP_GROWTH` when the last sub-query returned nothing, otherwise by
`math.ceil(remaining / returned)` (density extrapolation). -/
def nextStep (step : Int) (limit totalResults returned : Nat) : Int :=
  if returned == 0 then step * STEP_GROWTH
  else step * Int.ofNat ((limit - totalResults + returned - 1) / returned)

/-- Slide `split_start` into the past:
`max(split_end - timedelta(seconds=step), from_date)`, with the
`OverflowError` of the subtraction caught and turned into `from_date`. -/
def slideStart (e' step' fromDate : Int) : Int :=
  match pyDatetimeSub e' step' with
  | some x => max x fromDate
  | none => fromDate

/-- `_is_query_splittable` from `snuba/web/split.py`. -/
def isQuerySplittable (cfg : Config) (q : Query) : Bool :=
  0 < cfg.useSplit && 0 < q.limit.getD 0 && q.groupby.isEmpty

/-- `_identify_condition` from `snuba/web/split.py`. -/
def identifyCondition (c : Cond) (field op : String) : Bool :=
  isCondition c &&
    (match c with
     | .flat f o _ => f == field && o == op
     | .nested _ => false)

/-- `_replace_condition` from `snuba/web/split.py`: replace every condition
matching `(field, op)` by `[field, op, newLiteral]`, keeping the rest. -/
def replaceCondition (q : Query) (field op : String) (newLiteral : Lit) : Query :=
  q.setConditions
    (q.getConditions.map fun c =>
      if identifyCondition c field op then .flat field op newLiteral else c)

/-- Whether some condition of the query matches `(field, op)` (the `any(...)`
generators in `__can_execute`). -/
def hasCondition (q : Query) (field op : String) : Bool :=
  q.getConditions.any fun c => identifyCondition c field op

/-- The literal of a condition if it matches `(field, op)`. -/
def condLitFor (field op : String) : Cond → Option Lit
  | .flat f o l => if f == field && o == op then some l else none
  | .nested _ => none

/-- `next(condition[2] for condition in conditions if identify(...))`: the
literal of the first condition matching `(field, op)`. -/
def findCondLit (q : Query) (field op : String) : Option Lit :=
  q.getConditions.findSome? (condLitFor field op)

/-! ## TimeSplitQueryStrategy (`snuba/web/split.py`) -/

structure TimeSplitQueryStrategy where
  timestampCol : String

/-- `TimeSplitQueryStrategy.__can_execute`. -/
def TimeSplitQueryStrategy.canExecute (self : TimeSplitQueryStrategy)
    (cfg : Config) (req : Request) : Bool :=
  isQuerySplittable cfg req.query
    && hasCondition req.query self.timestampCol ">="
    && hasCondition req.query self.timestampCol "<"
    && req.query.orderby.take 1 == ["-" ++ self.timestampCol]
    && req.query.offset < 1000

/-- What one iteration of the time-split loop recorded: the sub-request handed
to the runner, the loop state when it was issued, and how many rows the
runner returned. -/
structure IterRecord where
  subReq : Request
  splitStart : Int
  splitEnd : Int
  splitStep : Int
  collectedBefore : Nat
  offsetBefore : Nat
  returnedRows : Nat
  deriving DecidableEq, Repr

/-- The mutable state of the time-split `while` loop, plus the trace of
iterations performed so far. -/
structure TimeState where
  splitEnd : Int
  splitStart : Int
  splitStep : Int
  remainingOffset : Nat
  overall : Option (List Row)
  trace : List IterRecord
  deriving Repr

/-- The deep-copied sub-request built by each loop iteration: timestamp
bounds rewritten to `[s, e)`, offset 0, limit `l`. -/
def buildSplitRequest (tsCol : String) (req : Request) (s e : Int) (l : Nat) :
    Request :=
  let q1 := replaceCondition req.query tsCol ">=" (.time s)
  let q2 := replaceCondition q1 tsCol "<" (.time e)
  { req with query := (q2.setOffset 0).setLimit l }

/-- The `while split_start < split_end and total_results < limit` condition. -/
def timeLoopCond (limit : Nat) (st : TimeState) : Bool :=
  st.splitStart < st.splitEnd && (st.overall.getD []).length < limit

/-- One iteration of the time-split loop body of
`TimeSplitQueryStrategy.execute`. -/
def timeSplitBody (tsCol : String) (fromDate : Int) (limit : Nat)
    (req : Request) (runner : Runner) (st : TimeState) : TimeState :=
  let collected := st.overall.getD []
  -- split_request = deepcopy(request); rewrite bounds; offset 0; limit
  let subReq := buildSplitRequest tsCol req st.splitStart st.splitEnd
    (limit - collected.length + st.remainingOffset)
  let res := runner.resp subReq
  -- overall_result is result on the first round, else data is extended
  let merged := collected ++ res.data
  -- incremental offset trimming
  let trimmed := trimOffset st.remainingOffset merged
  let data1 := trimmed.1
  let ro1 := trimmed.2
  let totalResults := data1.length
  let rec0 : IterRecord :=
    { subReq := subReq, splitStart := st.splitStart, splitEnd := st.splitEnd,
      splitStep := st.splitStep, collectedBefore := collected.length,
      offsetBefore := st.remainingOffset, returnedRows := res.data.length }
  if totalResults < limit then
    -- grow the window and slide it into the past
    let step' := nextStep st.splitStep limit totalResults res.data.length
    let e' := st.splitStart
    let s' := slideStart e' step' fromDate
    { splitEnd := e', splitStart := s', splitStep := step',
      remainingOffset := ro1, overall := some data1,
      trace := st.trace ++ [rec0] }
  else
    { splitEnd := st.splitEnd, splitStart := st.splitStart,
      splitStep := st.splitStep, remainingOffset := ro1,
      overall := some data1, trace := st.trace ++ [rec0] }

/-- The fuelled time-split loop: runs the body while the loop condition holds
and fuel remains. -/
def timeSplitLoopF (tsCol : String) (fromDate : Int) (limit : Nat)
    (req : Request) (runner : Runner) : Nat → TimeState → TimeState
  | 0, st => st
  | f + 1, st =>
    if timeLoopCond limit st then
      timeSplitLoopF tsCol fromDate limit req runner f
        (timeSplitBody tsCol fromDate limit req runner st)
    else st

/-- Outcome of `TimeSplitQueryStrategy.execute`: the returned value (`none`
when the strategy declines), the final value of the original `Request`
object, the iteration trace, and whether a Python exception was raised —
an unparseable timestamp literal, or the *initial* window subtraction
overflowing below `datetime.min` (that subtraction, unlike the in-loop
slide, sits outside the `try/except OverflowError`). -/
structure TimeOutcome where
  result : Option RawQueryResult
  finalReq : Request
  trace : List IterRecord
  raised : Bool

/-- `TimeSplitQueryStrategy.execute` from `snuba/web/split.py`. The original
request object is never handed to the runner (every call receives a deep
copy), so `finalReq` is always the request passed in. -/
def TimeSplitQueryStrategy.execute (self : TimeSplitQueryStrategy)
    (cfg : Config) (req : Request) (runner : Runner) : TimeOutcome :=
  if !(self.canExecute cfg req) then
    { result := none, finalReq := req, trace := [], raised := false }
  else
    match findCondLit req.query self.timestampCol "<",
        findCondLit req.query self.timestampCol ">=" with
    | some toLit, some fromLit =>
      match parseDatetimeLit cfg.dateAlignSeconds toLit,
          parseDatetimeLit cfg.dateAlignSeconds fromLit with
      | some toDate, some fromDate =>
        let limit := req.query.limit.getD 0
        -- the initial `split_end - timedelta(seconds=split_step)` is not
        -- guarded by the loop's try/except: an overflow propagates
        match pyDatetimeSub toDate cfg.splitStep with
        | none =>
          { result := none, finalReq := req, trace := [], raised := true }
        | some x =>
          let st0 : TimeState :=
            { splitEnd := toDate,
              splitStart := max x fromDate,
              splitStep := cfg.splitStep,
              remainingOffset := req.query.offset,
              overall := none, trace := [] }
          let fin := timeSplitLoopF self.timestampCol fromDate limit req
            runner ((toDate - fromDate).toNat + 1) st0
          { result := fin.overall.map ({ data := · }), finalReq := req,
            trace := fin.trace, raised := false }
      | _, _ => { result := none, finalReq := req, trace := [], raised := true }
    | _, _ => { result := none, finalReq := req, trace := [], raised := true }

/-! ## ColumnSplitQueryStrategy (`snuba/web/split.py`) -/

structure ColumnSplitQueryStrategy where
  idColumn : String
  projectColumn : String
  timestampColumn : String

def ColumnSplitQueryStrategy.getMinColumns (self : ColumnSplitQueryStrategy) :
    List String :=
  [self.idColumn, self.projectColumn, self.timestampColumn]

/-- `ColumnSplitQueryStrategy.__can_execute`. -/
def ColumnSplitQueryStrategy.canExecute (self : ColumnSplitQueryStrategy)
    (cfg : Config) (req : Request) : Bool :=
  if !(isQuerySplittable cfg req.query) then false
  else
    let totalColCount := req.query.getAllReferencedColumns.length
    let copiedQuery := req.query.setSelectedColumns self.getMinColumns
    let minColCount := copiedQuery.getAllReferencedColumns.length
    match req.query.selectedColumns with
    | none => false
    | some selectedCols =>
      !selectedCols.isEmpty && req.query.aggregations.isEmpty
        && minColCount < totalColCount

/-- Outcome of `ColumnSplitQueryStrategy.execute`: result, final value of the
original `Request` object, and the request values handed to the runner in
order. -/
structure ColOutcome where
  result : Option RawQueryResult
  finalReq : Request
  calls : List Request

/-- The second-phase request built by `ColumnSplitQueryStrategy.execute` from
the original request and the first-phase rows (nonempty in the branch that
uses it): add `id IN {distinct ids}`, offset 0, limit = number of distinct
ids, project filter rewritten to the distinct first-phase projects, and the
timestamp range narrowed to `[min ts, max ts + 1)`. -/
def colSecondPhaseRequest (self : ColumnSplitQueryStrategy) (req : Request)
    (rows : List Row) : Request :=
  let eventIds := (rows.map Row.eventId).dedup
  let q1 := req.query.addConditions [.flat self.idColumn "IN" (.ints eventIds)]
  let q2 := (q1.setOffset 0).setLimit eventIds.length
  let projectIds := (rows.map Row.projectId).dedup
  let q3 := replaceCondition q2 self.projectColumn "IN" (.ints projectIds)
  let timestamps := rows.map Row.timestamp
  let minTs := timestamps.min?.getD 0
  let maxTs := timestamps.max?.getD 0
  let q4 := replaceCondition q3 self.timestampColumn ">=" (.time minTs)
  -- 1 second is added because the bound is exclusive and events have
  -- 1-second granularity
  let q5 := replaceCondition q4 self.timestampColumn "<" (.time (maxTs + 1))
  { req with query := q5 }

/-- The first-phase request: a deep copy of the original whose selected
columns are replaced by the minimal projection. -/
def minimalRequestOf (self : ColumnSplitQueryStrategy) (req : Request) :
    Request :=
  { req with query := req.query.setSelectedColumns self.getMinColumns }

/-- `ColumnSplitQueryStrategy.execute` from `snuba/web/split.py`. The first
phase runs a deep copy restricted to the minimal columns; if it returned
rows, the second phase runs a deep copy rewritten by
`colSecondPhaseRequest`, otherwise the *original* request object itself is
handed to the (possibly mutating) runner. -/
def ColumnSplitQueryStrategy.execute (self : ColumnSplitQueryStrategy)
    (cfg : Config) (req : Request) (runner : Runner) : ColOutcome :=
  if !(self.canExecute cfg req) then
    { result := none, finalReq := req, calls := [] }
  else
    let minimalRequest := minimalRequestOf self req
    let result := runner.resp minimalRequest
    if !result.data.isEmpty then
      let req2 := colSecondPhaseRequest self req result.data
      { result := some (runner.resp req2), finalReq := req,
        calls := [minimalRequest, req2] }
    else
      -- `return runner(request)` on the original request object
      { result := some (runner.resp req), finalReq := runner.mutate req,
        calls := [minimalRequest, req] }

/-! ## The time split of `SplitQueryPlanExecutionStrategy`
(`snuba/datasets/plans/split.py`) -/

/-- One iteration of the `__time_split` loop body of
`SplitQueryPlanExecutionStrategy` in `snuba/datasets/plans/split.py`: the
range lives in the `timeseries` extension, which is rewritten to
`[split_start, split_end)` on the deep-copied sub-request, and matching
conditions on the hard-coded `timestamp` column are *appended* with
`add_conditions`. -/
def plansTimeSplitBody (fromDate : Int) (limit : Nat)
    (req : Request) (runner : Runner) (st : TimeState) : TimeState :=
  let collected := st.overall.getD []
  let q1 := req.query.addConditions
    [.flat "timestamp" ">=" (.time st.splitStart),
     .flat "timestamp" "<" (.time st.splitEnd)]
  let subReq : Request :=
    { req with
      query := (q1.setOffset 0).setLimit
        (limit - collected.length + st.remainingOffset),
      extFromDate := st.splitStart,
      extToDate := st.splitEnd }
  let res := runner.resp subReq
  let merged := collected ++ res.data
  let trimmed := trimOffset st.remainingOffset merged
  let data1 := trimmed.1
  let ro1 := trimmed.2
  let totalResults := data1.length
  let rec0 : IterRecord :=
    { subReq := subReq, splitStart := st.splitStart, splitEnd := st.splitEnd,
      splitStep := st.splitStep, collectedBefore := collected.length,
      offsetBefore := st.remainingOffset, returnedRows := res.data.length }
  if totalResults < limit then
    let step' := nextStep st.splitStep limit totalResults res.data.length
    let e' := st.splitStart
    let s' := slideStart e' step' fromDate
    { splitEnd := e', splitStart := s', splitStep := step',
      remainingOffset := ro1, overall := some data1,
      trace := st.trace ++ [rec0] }
  else
    { splitEnd := st.splitEnd, splitStart := st.splitStart,
      splitStep := st.splitStep, remainingOffset := ro1,
      overall := some data1, trace := st.trace ++ [rec0] }

/-- The fuelled loop of `SplitQueryPlanExecutionStrategy.__time_split`. -/
def plansTimeSplitLoopF (fromDate : Int) (limit : Nat)
    (req : Request) (runner : Runner) : Nat → TimeState → TimeState
  | 0, st => st
  | f + 1, st =>
    if timeLoopCond limit st then
      plansTimeSplitLoopF fromDate limit req runner f
        (plansTimeSplitBody fromDate limit req runner st)
    else st

/-- `SplitQueryPlanExecutionStrategy.__time_split` from
`snuba/datasets/plans/split.py`: the range is read from the `timeseries`
extension of the request. -/
def plansTimeSplit (cfg : Config) (req : Request) (runner : Runner) :
    TimeOutcome :=
  let toDate := alignTs cfg.dateAlignSeconds req.extToDate
  let fromDate := alignTs cfg.dateAlignSeconds req.extFromDate
  let limit := req.query.limit.getD 0
  -- the initial subtraction (plans/split.py:107) is unguarded in the source
  match pyDatetimeSub toDate cfg.splitStep with
  | none => { result := none, finalReq := req, trace := [], raised := true }
  | some x =>
    let st0 : TimeState :=
      { splitEnd := toDate,
        splitStart := max x fromDate,
        splitStep := cfg.splitStep,
        remainingOffset := req.query.offset,
        overall := none, trace := [] }
    let fin := plansTimeSplitLoopF fromDate limit req runner
      ((toDate - fromDate).toNat + 1) st0
    { result := fin.overall.map ({ data := · }), finalReq := req,
      trace := fin.trace, raised := false }

/-! ## Reference runner semantics for the row-set correctness claim -/

/-- Membership of a row's timestamp in the half-open window `[s, e)`. -/
def inWindow (s e : Int) (r : Row) : Bool :=
  s ≤ r.timestamp && r.timestamp < e

/-- The reference store semantics over a fixed row set `R` (listed in
descending timestamp order): for the sub-range a request carries in its
timestamp conditions, return the rows of `R` falling in that sub-range (in
descending order, since `R` is descending) with the request's offset and
limit applied. -/
def refRunnerResp (tsCol : String) (R : List Row) (req : Request) :
    RawQueryResult :=
  match findCondLit req.query tsCol ">=", findCondLit req.query tsCol "<" with
  | some (.time s), some (.time e) =>
    { data := (((R.filter (inWindow s e)).drop req.query.offset).take
        (req.query.limit.getD 0)) }
  | _, _ => { data := [] }

/-- A row list is sorted by timestamp descending (ties allowed). -/
def sortedDesc (R : List Row) : Prop :=
  List.Pairwise (fun a b => b.timestamp ≤ a.timestamp) R

/-! ## Lemmas about condition rewriting -/

theorem getConditions_replaceCondition (q : Query) (f o : String) (v : Lit) :
    (replaceCondition q f o v).getConditions =
      q.getConditions.map
        (fun c => if identifyCondition c f o then .flat f o v else c) := rfl

theorem identifyCondition_flat (a b : String) (l : Lit) (f o : String) :
    identifyCondition (.flat a b l) f o = (a == f && b == o) := by
  simp [identifyCondition, isCondition]

/-- Replacing conditions for one `(field, op)` pair does not change which
`(field, op)` pairs occur among the conditions. -/
theorem identifyCondition_replace_entry (c : Cond) (f o f' o' : String) (v : Lit) :
    identifyCondition
      (if identifyCondition c f' o' then Cond.flat f' o' v else c) f o =
      identifyCondition c f o := by
  cases c with
  | nested cols => simp [identifyCondition, isCondition]
  | flat a b l =>
    by_cases ha : a = f'
    · by_cases hb : b = o'
      · subst ha; subst hb; simp [identifyCondition_flat]
      · simp [identifyCondition_flat, hb]
    · simp [identifyCondition_flat, ha]

theorem hasCondition_replaceCondition (q : Query) (f o f' o' : String) (v : Lit) :
    hasCondition (replaceCondition q f' o' v) f o = hasCondition q f o := by
  unfold hasCondition
  rw [getConditions_replaceCondition]
  induction q.getConditions with
  | nil => rfl
  | cons c cs ih =>
    simp only [List.map_cons, List.any_cons, ih]
    rw [identifyCondition_replace_entry]

theorem condLitFor_flat (f o a b : String) (l : Lit) :
    condLitFor f o (.flat a b l) = if a == f && b == o then some l else none := rfl

/-- After rewriting `(f, o)` to `v`, the first `(f, o)` condition carries `v`,
provided some `(f, o)` condition exists. -/
theorem findCondLit_replaceCondition_same (q : Query) (f o : String) (v : Lit)
    (h : hasCondition q f o = true) :
    findCondLit (replaceCondition q f o v) f o = some v := by
  unfold hasCondition at h
  unfold findCondLit
  rw [getConditions_replaceCondition]
  generalize q.getConditions = cs at h ⊢
  induction cs with
  | nil => simp at h
  | cons c cs ih =>
    simp only [List.any_cons, Bool.or_eq_true] at h
    cases c with
    | nested cols =>
      have h0 : identifyCondition (Cond.nested cols) f o = false := by
        simp [identifyCondition, isCondition]
      simp only [h0] at h
      simp only [List.map_cons, h0, Bool.false_eq_true, if_false,
        List.findSome?_cons, condLitFor]
      exact ih (by simpa using h)
    | flat a b l =>
      by_cases hab : (a == f && b == o) = true
      · simp only [List.map_cons, identifyCondition_flat, hab, if_true,
          List.findSome?_cons, condLitFor_flat]
        simp
      · simp only [identifyCondition_flat, hab] at h
        simp only [List.map_cons, identifyCondition_flat, hab,
          Bool.false_eq_true, if_false, List.findSome?_cons, condLitFor_flat]
        exact ih (by simpa using h)

/-- Rewriting conditions of a different `(field, op)` pair leaves the first
literal of `(f, o)` unchanged. -/
theorem findCondLit_replaceCondition_other (q : Query) (f o f' o' : String)
    (v : Lit) (h : ¬(f = f' ∧ o = o')) :
    findCondLit (replaceCondition q f' o' v) f o = findCondLit q f o := by
  unfold findCondLit
  rw [getConditions_replaceCondition]
  generalize q.getConditions = cs
  induction cs with
  | nil => rfl
  | cons c cs ih =>
    cases c with
    | nested cols =>
      have h0 : identifyCondition (Cond.nested cols) f' o' = false := by
        simp [identifyCondition, isCondition]
      simp only [List.map_cons, h0, Bool.false_eq_true, if_false,
        List.findSome?_cons, condLitFor]
      rw [ih]
    | flat a b l =>
      by_cases hab : (a == f' && b == o') = true
      · have hab' : a = f' ∧ b = o' := by simpa using hab
        have h2 : (a == f && b == o) = false := by
          rw [hab'.1, hab'.2]
          rcases not_and_or.mp h with hf | ho
          · simp only [Bool.and_eq_false_iff]
            left
            simpa using fun hf' => hf hf'.symm
          · simp only [Bool.and_eq_false_iff]
            right
            simpa using fun ho' => ho ho'.symm
        have h1 : (f' == f && o' == o) = false := by
          rw [← hab'.1, ← hab'.2]; exact h2
        simp only [List.map_cons, identifyCondition_flat, hab, if_true,
          List.findSome?_cons, condLitFor_flat, h1, h2, Bool.false_eq_true,
          if_false]
        rw [ih]
      · simp only [List.map_cons, identifyCondition_flat, hab,
          Bool.false_eq_true, if_false, List.findSome?_cons]
        cases hfo : condLitFor f o (Cond.flat a b l) with
        | none => simp only [hfo]; rw [ih]
        | some x => simp only [hfo]

/-! ## Lemmas about the reference store semantics -/

/-- The rows of `R` whose timestamp falls in `[s, e)`. -/
def winRows (R : List Row) (s e : Int) : List Row :=
  R.filter (inWindow s e)

theorem findCondLit_buildSplitRequest_ge (tsCol : String) (req : Request)
    (s e : Int) (l : Nat) (hge : hasCondition req.query tsCol ">=" = true) :
    findCondLit (buildSplitRequest tsCol req s e l).query tsCol ">=" =
      some (.time s) := by
  show findCondLit
    (replaceCondition (replaceCondition req.query tsCol ">=" (.time s))
      tsCol "<" (.time e)) tsCol ">=" = some (.time s)
  rw [findCondLit_replaceCondition_other _ _ _ _ _ _ (by simp),
    findCondLit_replaceCondition_same _ _ _ _ hge]

theorem findCondLit_buildSplitRequest_lt (tsCol : String) (req : Request)
    (s e : Int) (l : Nat) (hlt : hasCondition req.query tsCol "<" = true) :
    findCondLit (buildSplitRequest tsCol req s e l).query tsCol "<" =
      some (.time e) := by
  show findCondLit
    (replaceCondition (replaceCondition req.query tsCol ">=" (.time s))
      tsCol "<" (.time e)) tsCol "<" = some (.time e)
  rw [findCondLit_replaceCondition_same]
  rw [hasCondition_replaceCondition]
  exact hlt

/-- On a sub-request built by the time-split loop, the reference store returns
the window's rows truncated to the sub-request's limit. -/
theorem refRunnerResp_buildSplitRequest (tsCol : String) (R : List Row)
    (req : Request) (s e : Int) (l : Nat)
    (hge : hasCondition req.query tsCol ">=" = true)
    (hlt : hasCondition req.query tsCol "<" = true) :
    refRunnerResp tsCol R (buildSplitRequest tsCol req s e l) =
      { data := (winRows R s e).take l } := by
  unfold refRunnerResp
  rw [findCondLit_buildSplitRequest_ge tsCol req s e l hge,
    findCondLit_buildSplitRequest_lt tsCol req s e l hlt]
  show ({ data := ((R.filter (inWindow s e)).drop 0).take l } : RawQueryResult)
    = { data := (winRows R s e).take l }
  rw [List.drop_zero]
  rfl

theorem inWindow_iff (s e : Int) (r : Row) :
    inWindow s e r = true ↔ s ≤ r.timestamp ∧ r.timestamp < e := by
  simp [inWindow]

theorem inWindow_false_of_lt (s e : Int) (r : Row) (h : r.timestamp < s) :
    inWindow s e r = false := by
  simp only [inWindow, Bool.and_eq_false_iff, decide_eq_false_iff_not]
  left; omega

theorem inWindow_false_of_ge (s e : Int) (r : Row) (h : e ≤ r.timestamp) :
    inWindow s e r = false := by
  simp only [inWindow, Bool.and_eq_false_iff, decide_eq_false_iff_not]
  right; omega

/-- Splitting a descending row list's window `[s, b)` at `e`: the newer rows
`[e, b)` come first, then the older rows `[s, e)`. -/
theorem winRows_split (R : List Row) (hs : sortedDesc R) (s e b : Int)
    (h1 : s ≤ e) (h2 : e ≤ b) :
    winRows R s b = winRows R e b ++ winRows R s e := by
  induction R with
  | nil => simp [winRows]
  | cons r rest ih =>
    rw [sortedDesc, List.pairwise_cons] at hs
    obtain ⟨hr, hrest⟩ := hs
    have ihr := ih hrest
    by_cases hre : e ≤ r.timestamp
    · have hse : inWindow s e r = false := inWindow_false_of_ge _ _ _ hre
      by_cases hrb : r.timestamp < b
      · have h1' : inWindow s b r = true := by rw [inWindow_iff]; omega
        have h2' : inWindow e b r = true := by rw [inWindow_iff]; omega
        simp only [winRows, List.filter_cons, h1', h2', hse, if_true,
          Bool.false_eq_true, if_false, List.cons_append]
        exact congrArg (r :: ·) ihr
      · have h1' : inWindow s b r = false := inWindow_false_of_ge _ _ _ (by omega)
        have h2' : inWindow e b r = false := inWindow_false_of_ge _ _ _ (by omega)
        simp only [winRows, List.filter_cons, h1', h2', hse,
          Bool.false_eq_true, if_false]
        exact ihr
    · have h2' : inWindow e b r = false := inWindow_false_of_lt _ _ _ (by omega)
      have hEB : winRows rest e b = [] := by
        rw [winRows, List.filter_eq_nil_iff]
        intro a ha
        have := hr a ha
        rw [inWindow_false_of_lt _ _ _ (by omega)]
        simp
      by_cases hsr : s ≤ r.timestamp
      · have h1' : inWindow s b r = true := by rw [inWindow_iff]; omega
        have hse : inWindow s e r = true := by rw [inWindow_iff]; omega
        simp only [winRows, List.filter_cons, h1', h2', hse, if_true,
          Bool.false_eq_true, if_false]
        rw [show (List.filter (inWindow s b) rest) = winRows rest s b from rfl,
          show (List.filter (inWindow e b) rest) = winRows rest e b from rfl,
          ihr, hEB]
        simp [winRows]
      · have h1' : inWindow s b r = false := inWindow_false_of_lt _ _ _ (by omega)
        have hse : inWindow s e r = false := inWindow_false_of_lt _ _ _ (by omega)
        simp only [winRows, List.filter_cons, h1', h2', hse,
          Bool.false_eq_true, if_false]
        rw [show (List.filter (inWindow s b) rest) = winRows rest s b from rfl,
          show (List.filter (inWindow e b) rest) = winRows rest e b from rfl,
          ihr, hEB]
        simp [winRows]

theorem winRows_self (R : List Row) (e : Int) : winRows R e e = [] := by
  rw [winRows, List.filter_eq_nil_iff]
  intro a _
  rcases le_or_lt e a.timestamp with h | h
  · rw [inWindow_false_of_ge _ _ _ h]; simp
  · rw [inWindow_false_of_lt _ _ _ h]; simp

/-- Taking `k` elements after dropping `n` ignores a right extension of the
list as long as enough elements remain. -/
theorem drop_take_append_of_le (xs ys : List Row) (n k : Nat)
    (h : k ≤ (xs.drop n).length) :
    ((xs ++ ys).drop n).take k = (xs.drop n).take k := by
  rw [List.drop_append_eq_append_drop, List.take_append_eq_append_take]
  have h0 : k - (xs.drop n).length = 0 := by omega
  rw [h0]
  simp

/-! ## Lemmas about the loop helpers -/

theorem trimOffset_eq (ro : Nat) (merged : List Row) :
    trimOffset ro merged = (merged.drop ro, ro - min ro merged.length) := by
  unfold trimOffset
  split_ifs with h
  · have hd : merged.drop (min ro merged.length) = merged.drop ro := by
      rcases le_total ro merged.length with h1 | h1
      · rw [min_eq_left h1]
      · rw [min_eq_right h1, List.drop_eq_nil_of_le le_rfl,
          List.drop_eq_nil_of_le h1]
    simp only [hd]
  · simp only [Bool.and_eq_true, decide_eq_true_eq, not_and_or] at h
    rcases h with h | h
    · have h0 : ro = 0 := by omega
      subst h0
      simp
    · have h0 : merged.length = 0 := by omega
      have h1 : merged = [] := List.length_eq_zero.mp h0
      subst h1
      simp

theorem le_slideStart (e' step' fromDate : Int) :
    fromDate ≤ slideStart e' step' fromDate := by
  unfold slideStart pyDatetimeSub
  split_ifs <;> simp [le_max_right]

theorem slideStart_le (e' step' fromDate : Int) (h1 : fromDate ≤ e')
    (h2 : 0 ≤ step') : slideStart e' step' fromDate ≤ e' := by
  unfold slideStart pyDatetimeSub
  split_ifs with h
  · exact h1
  · simp only []
    rw [max_le_iff]
    constructor <;> omega

theorem slideStart_eq_imp (e' step' fromDate : Int) (h2 : 1 ≤ step')
    (h : slideStart e' step' fromDate = e') : e' = fromDate := by
  unfold slideStart at h
  cases hps : pyDatetimeSub e' step' with
  | none => rw [hps] at h; exact h.symm
  | some x =>
    rw [hps] at h
    unfold pyDatetimeSub at hps
    split_ifs at hps with h3
    simp only [Option.some.injEq] at hps
    have h' : x ⊔ fromDate = e' := h
    rcases max_choice x fromDate with hm | hm <;> rw [hm] at h' <;> omega

theorem nextStep_pos (step : Int) (limit totalResults returned : Nat)
    (hstep : 1 ≤ step) (hlt : totalResults < limit) :
    1 ≤ nextStep step limit totalResults returned := by
  unfold nextStep STEP_GROWTH
  split_ifs with h
  · nlinarith
  · have hret : 0 < returned := Nat.pos_of_ne_zero (by simpa using h)
    have hq : 1 ≤ (limit - totalResults + returned - 1) / returned := by
      apply Nat.le_div_iff_mul_le hret |>.mpr
      omega
    have hq' : (1 : Int) ≤ Int.ofNat ((limit - totalResults + returned - 1) / returned) :=
      Int.ofNat_le.mpr hq
    nlinarith

/-! ## The time-split loop invariant and its preservation -/

/-- The merged-and-trimmed data of one loop iteration equals the first `L`
rows, after skipping `O`, of the processed range: `P` are the rows already
processed (newer windows), `W` the rows of the window just queried. -/
theorem merge_trim_data (P W : List Row) (O L : Nat)
    (h : (P.drop O).length < L) :
    ((P.drop O) ++ W.take (L - (P.drop O).length + (O - min O P.length))).drop
        (O - min O P.length) = ((P ++ W).drop O).take L := by
  rcases le_or_lt O P.length with hO | hO
  · have hro : O - min O P.length = 0 := by
      rw [min_eq_left hO]
      omega
    rw [hro, Nat.add_zero, List.drop_zero, List.drop_append_eq_append_drop,
      List.take_append_eq_append_take]
    have h1 : O - P.length = 0 := by omega
    rw [h1, List.drop_zero, List.take_of_length_le (le_of_lt h),
      List.length_drop]
  · have hacc : P.drop O = [] := List.drop_eq_nil_of_le (by omega)
    have hro : O - min O P.length = O - P.length := by
      rw [min_eq_right (by omega)]
    rw [hacc, hro, List.nil_append, List.length_nil, Nat.sub_zero,
      List.drop_take, List.drop_append_eq_append_drop,
      List.drop_eq_nil_of_le (le_of_lt hO), List.nil_append]
    congr 1
    omega

/-- The remaining offset after one merge-and-trim step equals the original
offset minus what the processed rows have absorbed. -/
theorem merge_trim_ro (P W : List Row) (O L : Nat)
    (h : (P.drop O).length < L) :
    (O - min O P.length) -
        min (O - min O P.length)
          ((P.drop O) ++ W.take (L - (P.drop O).length + (O - min O P.length))).length
      = O - min O (P ++ W).length := by
  have hPd : (P.drop O).length = P.length - O := List.length_drop ..
  have hW : (W.take (L - (P.drop O).length + (O - min O P.length))).length
      = min (L - (P.drop O).length + (O - min O P.length)) W.length :=
    List.length_take ..
  rw [List.length_append, List.length_append, hW, hPd]
  omega

/-- Invariant of the time-split loop: looking at the current `split_end`, the
accumulated data is the answer for the already-processed range
`[split_end, B)`, the remaining offset is what that range has not yet
absorbed, and the window bounds stay inside `[A, B]` with a positive step. -/
structure TimeInv (R : List Row) (A B : Int) (L O : Nat) (st : TimeState) :
    Prop where
  acc_eq : st.overall.getD [] = ((winRows R st.splitEnd B).drop O).take L
  ro_eq : st.remainingOffset = O - min O (winRows R st.splitEnd B).length
  lo_start : A ≤ st.splitStart
  start_le_end : st.splitStart ≤ st.splitEnd
  end_le : st.splitEnd ≤ B
  eq_imp : st.splitStart = st.splitEnd → st.splitEnd = A
  step_pos : 1 ≤ st.splitStep

/-- Explicit form of one time-split iteration, given the rows the runner
returns for the sub-request. -/
theorem timeSplitBody_eq (tsCol : String) (A : Int) (limit : Nat)
    (req : Request) (runner : Runner) (st : TimeState) (rows : List Row)
    (hres : runner.resp (buildSplitRequest tsCol req st.splitStart st.splitEnd
        (limit - (st.overall.getD []).length + st.remainingOffset)) =
      { data := rows }) :
    timeSplitBody tsCol A limit req runner st =
      if (((st.overall.getD []) ++ rows).drop st.remainingOffset).length < limit
      then
        { splitEnd := st.splitStart,
          splitStart := slideStart st.splitStart
            (nextStep st.splitStep limit
              (((st.overall.getD []) ++ rows).drop st.remainingOffset).length
              rows.length) A,
          splitStep := nextStep st.splitStep limit
            (((st.overall.getD []) ++ rows).drop st.remainingOffset).length
            rows.length,
          remainingOffset := st.remainingOffset -
            min st.remainingOffset ((st.overall.getD []) ++ rows).length,
          overall := some (((st.overall.getD []) ++ rows).drop st.remainingOffset),
          trace := st.trace ++
            [{ subReq := buildSplitRequest tsCol req st.splitStart st.splitEnd
                  (limit - (st.overall.getD []).length + st.remainingOffset),
               splitStart := st.splitStart, splitEnd := st.splitEnd,
               splitStep := st.splitStep,
               collectedBefore := (st.overall.getD []).length,
               offsetBefore := st.remainingOffset,
               returnedRows := rows.length }] }
      else
        { splitEnd := st.splitEnd, splitStart := st.splitStart,
          splitStep := st.splitStep,
          remainingOffset := st.remainingOffset -
            min st.remainingOffset ((st.overall.getD []) ++ rows).length,
          overall := some (((st.overall.getD []) ++ rows).drop st.remainingOffset),
          trace := st.trace ++
            [{ subReq := buildSplitRequest tsCol req st.splitStart st.splitEnd
                  (limit - (st.overall.getD []).length + st.remainingOffset),
               splitStart := st.splitStart, splitEnd := st.splitEnd,
               splitStep := st.splitStep,
               collectedBefore := (st.overall.getD []).length,
               offsetBefore := st.remainingOffset,
               returnedRows := rows.length }] } := by
  simp only [timeSplitBody, hres, trimOffset_eq]

/-- One iteration of the time-split loop, run from an invariant state with the
loop condition true, yields a state with accumulated data, which either
satisfies the invariant again (window advanced into the past) or already
holds the final answer with the loop condition now false. -/
theorem timeSplitBody_spec (tsCol : String) (R : List Row) (req : Request)
    (runner : Runner) (A B : Int) (L O : Nat)
    (hs : sortedDesc R)
    (hresp : runner.resp = refRunnerResp tsCol R)
    (hge : hasCondition req.query tsCol ">=" = true)
    (hlt : hasCondition req.query tsCol "<" = true)
    (st : TimeState) (hinv : TimeInv R A B L O st)
    (hcond : timeLoopCond L st = true) :
    (timeSplitBody tsCol A L req runner st).overall.isSome = true ∧
      ((TimeInv R A B L O (timeSplitBody tsCol A L req runner st) ∧
         (timeSplitBody tsCol A L req runner st).splitEnd = st.splitStart) ∨
       ((timeSplitBody tsCol A L req runner st).overall.getD [] =
           ((winRows R A B).drop O).take L ∧
         timeLoopCond L (timeSplitBody tsCol A L req runner st) = false)) := by
  simp only [timeLoopCond, Bool.and_eq_true, decide_eq_true_eq] at hcond
  obtain ⟨hslt, hlen⟩ := hcond
  have hresEq : runner.resp (buildSplitRequest tsCol req st.splitStart
      st.splitEnd (L - (st.overall.getD []).length + st.remainingOffset)) =
      { data := (winRows R st.splitStart st.splitEnd).take
          (L - (st.overall.getD []).length + st.remainingOffset) } := by
    rw [hresp]
    exact refRunnerResp_buildSplitRequest tsCol R req _ _ _ hge hlt
  have hPW : winRows R st.splitStart B =
      winRows R st.splitEnd B ++ winRows R st.splitStart st.splitEnd :=
    winRows_split R hs _ _ _ hinv.start_le_end hinv.end_le
  -- abbreviations for the already-processed and current-window rows
  have hlenP : ((winRows R st.splitEnd B).drop O).length < L := by
    have h1 := hinv.acc_eq
    have h2 : (st.overall.getD []).length =
        min L ((winRows R st.splitEnd B).drop O).length := by
      rw [h1, List.length_take]
    omega
  have hacc : st.overall.getD [] = (winRows R st.splitEnd B).drop O := by
    rw [hinv.acc_eq, List.take_of_length_le (le_of_lt hlenP)]
  have hdata : (((st.overall.getD []) ++
        ((winRows R st.splitStart st.splitEnd).take
          (L - (st.overall.getD []).length + st.remainingOffset))).drop
        st.remainingOffset) =
      ((winRows R st.splitStart B).drop O).take L := by
    rw [hPW, hacc, hinv.ro_eq]
    exact merge_trim_data _ _ _ _ hlenP
  have hro1 : st.remainingOffset - min st.remainingOffset
        ((st.overall.getD []) ++
          ((winRows R st.splitStart st.splitEnd).take
            (L - (st.overall.getD []).length + st.remainingOffset))).length =
      O - min O (winRows R st.splitStart B).length := by
    rw [hPW, hacc, hinv.ro_eq]
    exact merge_trim_ro _ _ _ _ hlenP
  rw [timeSplitBody_eq tsCol A L req runner st _ hresEq]
  by_cases hdone : (((st.overall.getD []) ++
      ((winRows R st.splitStart st.splitEnd).take
        (L - (st.overall.getD []).length + st.remainingOffset))).drop
      st.remainingOffset).length < L
  · rw [if_pos hdone]
    refine ⟨rfl, Or.inl ⟨?_, rfl⟩⟩
    have hstep' : 1 ≤ nextStep st.splitStep L
        (((st.overall.getD []) ++
          ((winRows R st.splitStart st.splitEnd).take
            (L - (st.overall.getD []).length + st.remainingOffset))).drop
          st.remainingOffset).length
        ((winRows R st.splitStart st.splitEnd).take
          (L - (st.overall.getD []).length + st.remainingOffset)).length :=
      nextStep_pos _ _ _ _ hinv.step_pos hdone
    exact {
      acc_eq := by simpa using hdata
      ro_eq := by simpa using hro1
      lo_start := le_slideStart _ _ _
      start_le_end := slideStart_le _ _ _ hinv.lo_start (by omega)
      end_le := le_trans hinv.start_le_end hinv.end_le
      eq_imp := fun h => slideStart_eq_imp _ _ _ hstep' h
      step_pos := hstep' }
  · rw [if_neg hdone]
    refine ⟨rfl, Or.inr ⟨?_, ?_⟩⟩
    · show (((st.overall.getD []) ++
          ((winRows R st.splitStart st.splitEnd).take
            (L - (st.overall.getD []).length + st.remainingOffset))).drop
          st.remainingOffset) = ((winRows R A B).drop O).take L
      rw [hdata]
      have hL : (((winRows R st.splitStart B).drop O).take L).length = L := by
        have := List.length_take L ((winRows R st.splitStart B).drop O)
        have h2 : (((winRows R st.splitStart B).drop O).take L).length =
            min L ((winRows R st.splitStart B).drop O).length := this
        rw [hdata] at hdone
        omega
      have hsplitA : winRows R A B =
          winRows R st.splitStart B ++ winRows R A st.splitStart :=
        winRows_split R hs _ _ _ hinv.lo_start
          (le_trans hinv.start_le_end hinv.end_le)
      rw [hsplitA, drop_take_append_of_le]
      have := List.length_take L ((winRows R st.splitStart B).drop O)
      omega
    · show timeLoopCond L _ = false
      simp only [timeLoopCond, Bool.and_eq_false_iff]
      right
      simp only [Option.getD_some, decide_eq_false_iff_not, not_lt]
      omega

/-- When the loop condition fails in an invariant state, the accumulated data
is already the final answer. -/
theorem timeLoop_exit_spec (R : List Row) (A B : Int) (L O : Nat)
    (st : TimeState) (hs : sortedDesc R) (hinv : TimeInv R A B L O st)
    (hcond : timeLoopCond L st = false) :
    st.overall.getD [] = ((winRows R A B).drop O).take L := by
  simp only [timeLoopCond, Bool.and_eq_false_iff, decide_eq_false_iff_not,
    not_lt] at hcond
  rcases hcond with hcond | hcond
  · have hse : st.splitStart = st.splitEnd :=
      le_antisymm hinv.start_le_end hcond
    have heA : st.splitEnd = A := hinv.eq_imp hse
    rw [hinv.acc_eq, heA]
  · have h2 : (st.overall.getD []).length =
        min L ((winRows R st.splitEnd B).drop O).length := by
      rw [hinv.acc_eq, List.length_take]
    have hsplitA : winRows R A B =
        winRows R st.splitEnd B ++ winRows R A st.splitEnd :=
      winRows_split R hs _ _ _ (le_trans hinv.lo_start hinv.start_le_end)
        hinv.end_le
    rw [hinv.acc_eq, hsplitA, drop_take_append_of_le]
    omega

/-- The fuelled loop is the identity once the loop condition fails. -/
theorem timeSplitLoopF_of_cond_false (tsCol : String) (A : Int) (L : Nat)
    (req : Request) (runner : Runner) (f : Nat) (st : TimeState)
    (h : timeLoopCond L st = false) :
    timeSplitLoopF tsCol A L req runner f st = st := by
  cases f with
  | zero => rfl
  | succ f =>
    show (if timeLoopCond L st = true then _ else st) = st
    rw [if_neg (by rw [h]; simp)]

theorem overall_eq_some_getD (o : Option (List Row))
    (h : o.isSome = true) : o = some (o.getD []) := by
  cases o with
  | none => simp at h
  | some x => rfl

/-- Correctness of the fuelled time-split loop: from any invariant state with
enough fuel, the loop ends with exactly the first `L` rows, after skipping
`O`, of the full range. -/
theorem timeSplitLoopF_spec (tsCol : String) (R : List Row) (req : Request)
    (runner : Runner) (A B : Int) (L O : Nat)
    (hs : sortedDesc R)
    (hresp : runner.resp = refRunnerResp tsCol R)
    (hge : hasCondition req.query tsCol ">=" = true)
    (hlt : hasCondition req.query tsCol "<" = true) :
    ∀ (fuel : Nat) (st : TimeState), TimeInv R A B L O st →
      (st.overall.isSome = true ∨ timeLoopCond L st = true) →
      (st.splitEnd - A).toNat + 1 ≤ fuel →
      (timeSplitLoopF tsCol A L req runner fuel st).overall =
        some (((winRows R A B).drop O).take L) := by
  intro fuel
  induction fuel with
  | zero => intro st _ _ hf; omega
  | succ f ih =>
    intro st hinv hsome hf
    by_cases hc : timeLoopCond L st = true
    · show (if timeLoopCond L st = true then _ else st).overall = _
      rw [if_pos hc]
      obtain ⟨hsome', hdisj⟩ := timeSplitBody_spec tsCol R req runner A B L O
        hs hresp hge hlt st hinv hc
      rcases hdisj with ⟨hinv', hEnd⟩ | ⟨hval, hcond'⟩
      · apply ih _ hinv' (Or.inl hsome')
        simp only [timeLoopCond, Bool.and_eq_true, decide_eq_true_eq] at hc
        have h1 := hinv.lo_start
        have h2 := hc.1
        rw [hEnd]
        omega
      · rw [timeSplitLoopF_of_cond_false _ _ _ _ _ _ _ hcond']
        rw [overall_eq_some_getD _ hsome', hval]
    · show (if timeLoopCond L st = true then _ else st).overall = _
      rw [if_neg hc]
      have hcf : timeLoopCond L st = false := by
        cases h : timeLoopCond L st
        · rfl
        · exact absurd h hc
      have hval := timeLoop_exit_spec R A B L O st hs hinv hcf
      have hsome2 : st.overall.isSome = true := by
        rcases hsome with h | h
        · exact h
        · exact absurd h hc
      rw [overall_eq_some_getD _ hsome2, hval]

theorem alignTs_one (t : Int) : alignTs 1 t = t := by
  simp [alignTs]

/-- C1 (amended): for a request with limit `L`, offset `O`, range `[A, B)`,
descending timestamp order, and a runner implementing the reference store
semantics over a fixed descending row set `R`, the time split returns
exactly the first `L` rows (after skipping `O`) of the full range —
provided the initial window subtraction `to_date - split_step` stays at or
above `datetime.min` (web/split.py:122 is outside the `try/except` and an
underflow there raises instead of returning). -/
theorem time_split_row_set_correct (tsCol : String) (R : List Row)
    (cfg : Config) (req : Request) (runner : Runner) (A B : Int) (L O : Nat)
    (hs : sortedDesc R)
    (hresp : runner.resp = refRunnerResp tsCol R)
    (hce : TimeSplitQueryStrategy.canExecute ⟨tsCol⟩ cfg req = true)
    (halign : cfg.dateAlignSeconds = 1)
    (hstep : 1 ≤ cfg.splitStep)
    (hinit : pyDatetimeMin ≤ B - cfg.splitStep)
    (hfrom : findCondLit req.query tsCol ">=" = some (.time A))
    (hto : findCondLit req.query tsCol "<" = some (.time B))
    (hAB : A < B)
    (hlim : req.query.limit = some L)
    (hO : req.query.offset = O) :
    (TimeSplitQueryStrategy.execute ⟨tsCol⟩ cfg req runner).result =
      some { data := ((winRows R A B).drop O).take L } := by
  have hce' := hce
  simp only [TimeSplitQueryStrategy.canExecute, Bool.and_eq_true,
    decide_eq_true_eq] at hce'
  obtain ⟨⟨⟨⟨hsplit, hge⟩, hlt⟩, horder⟩, hoff⟩ := hce'
  have hL : 0 < L := by
    simp only [isQuerySplittable, Bool.and_eq_true, decide_eq_true_eq] at hsplit
    have := hsplit.1.2
    rw [hlim] at this
    simpa using this
  unfold TimeSplitQueryStrategy.execute
  rw [if_neg (by rw [hce]; simp)]
  show ((match findCondLit req.query tsCol "<", findCondLit req.query tsCol ">="
      with
    | some toLit, some fromLit => _
    | _, _ => _) : TimeOutcome).result = _
  rw [hto, hfrom]
  simp only [parseDatetimeLit, halign, alignTs_one]
  rw [show pyDatetimeSub B cfg.splitStep = some (B - cfg.splitStep) from by
    unfold pyDatetimeSub
    rw [if_neg (by omega)]]
  rw [hlim, hO]
  simp only [Option.getD_some]
  have hloop := timeSplitLoopF_spec tsCol R req runner A B L O hs hresp hge hlt
    ((B - A).toNat + 1)
    { splitEnd := B, splitStart := max (B - cfg.splitStep) A,
      splitStep := cfg.splitStep, remainingOffset := O,
      overall := none, trace := [] }
    { acc_eq := by simp [winRows_self]
      ro_eq := by simp [winRows_self]
      lo_start := le_max_right _ _
      start_le_end := by
        show max (B - cfg.splitStep) A ≤ B
        exact max_le (by omega) (le_of_lt hAB)
      eq_imp := by
        intro h
        have h' : max (B - cfg.splitStep) A = B := h
        show B = A
        rcases max_choice (B - cfg.splitStep) A with hm | hm <;> omega
      end_le := le_refl B
      step_pos := hstep }
    (Or.inr (by
      simp only [timeLoopCond, Bool.and_eq_true, decide_eq_true_eq]
      refine ⟨?_, ?_⟩
      · show max (B - cfg.splitStep) A < B
        rw [max_lt_iff]
        omega
      · show (Option.getD none []).length < L
        simpa using hL))
    (by simp)
  rw [hloop]
  rfl

/-- Concrete instances for witnesses. -/
def wRows : List Row := [⟨4, 1, 4⟩, ⟨2, 1, 2⟩, ⟨1, 1, 1⟩]

def wCfg : Config := { useSplit := 1, dateAlignSeconds := 1, splitStep := 1 }

def wQuery : Query :=
  { selectedColumns := some ["event_id"],
    conditions := some
      [.flat "timestamp" ">=" (.time 0), .flat "timestamp" "<" (.time 5)],
    groupby := [], aggregations := [], orderby := ["-timestamp"],
    limit := some 2, offset := 1 }

def wReq : Request :=
  { query := wQuery, extFromDate := 0, extToDate := 5, extProject := [1] }

def wRunner : Runner := { resp := refRunnerResp "timestamp" wRows, mutate := id }

theorem time_split_row_set_correct_witness :
    sortedDesc wRows ∧
    TimeSplitQueryStrategy.canExecute ⟨"timestamp"⟩ wCfg wReq = true ∧
    (0 : Int) < 5 ∧
    (TimeSplitQueryStrategy.execute ⟨"timestamp"⟩ wCfg wReq wRunner).result =
      some { data := ((winRows wRows 0 5).drop 1).take 2 } :=
  ⟨by unfold sortedDesc; decide, by decide, by decide,
    time_split_row_set_correct "timestamp" wRows wCfg wReq wRunner 0 5 2 1
      (by unfold sortedDesc; decide) rfl (by decide) rfl (by decide)
      (by decide) rfl rfl (by decide) rfl rfl⟩

/-- A request whose whole range sits right at Python's `datetime.min`: with
the default `split_step = 3600` the initial window subtraction underflows. -/
def wOvQuery : Query :=
  { selectedColumns := some ["event_id"],
    conditions := some
      [.flat "timestamp" ">=" (.time (-62135596800)),
        .flat "timestamp" "<" (.time (-62135595000))],
    groupby := [], aggregations := [], orderby := ["-timestamp"],
    limit := some 2, offset := 1 }

def wOvReq : Request :=
  { query := wOvQuery, extFromDate := -62135596800,
    extToDate := -62135595000, extProject := [1] }

def wOvCfg : Config := { useSplit := 1, dateAlignSeconds := 1, splitStep := 3600 }

/-- C1 counterexample: a request at the very start of the representable
datetime range, with the default `split_step = 3600` and a reference-store
runner, satisfies every premise of the row-set claim — yet
`TimeSplitQueryStrategy.execute` raises (`split_end - timedelta(3600)`
falls below `datetime.min` at web/split.py:122, outside the `try/except`)
instead of returning the first rows of the range. -/
theorem time_split_raises_at_datetime_min :
    TimeSplitQueryStrategy.canExecute ⟨"timestamp"⟩ wOvCfg wOvReq = true ∧
    (-62135596800 : Int) < -62135595000 ∧
    (1 : Int) ≤ wOvCfg.splitStep ∧
    wRunner.resp = refRunnerResp "timestamp" wRows ∧
    (TimeSplitQueryStrategy.execute ⟨"timestamp"⟩ wOvCfg wOvReq
      wRunner).raised = true ∧
    (TimeSplitQueryStrategy.execute ⟨"timestamp"⟩ wOvCfg wOvReq
      wRunner).result = none :=
  ⟨by decide, by decide, by decide, rfl, by decide, by decide⟩

/-! ## Termination of the time-split loop (any runner) -/

/-- Geometric progress of the fuelled loop, for an arbitrary runner: with fuel
`(split_end - from_date).toNat + 1` the loop reaches a state where the loop
condition is false, having performed at most `(split_end - from_date).toNat`
further iterations. -/
theorem timeSplitLoopF_term (tsCol : String) (A : Int) (L : Nat)
    (req : Request) (runner : Runner) :
    ∀ (fuel : Nat) (st : TimeState), A ≤ st.splitStart →
      st.splitStart ≤ st.splitEnd → 1 ≤ st.splitStep →
      (st.splitEnd - A).toNat + 1 ≤ fuel →
      timeLoopCond L (timeSplitLoopF tsCol A L req runner fuel st) = false ∧
        (timeSplitLoopF tsCol A L req runner fuel st).trace.length ≤
          st.trace.length + (st.splitEnd - A).toNat := by
  intro fuel
  induction fuel with
  | zero => intro st _ _ _ hf; omega
  | succ f ih =>
    intro st hA hse hstep hf
    by_cases hc : timeLoopCond L st = true
    · have hslt : st.splitStart < st.splitEnd ∧
          (st.overall.getD []).length < L := by
        simpa [timeLoopCond] using hc
      rw [show timeSplitLoopF tsCol A L req runner (f + 1) st =
        timeSplitLoopF tsCol A L req runner f
          (timeSplitBody tsCol A L req runner st) from by
          show (if timeLoopCond L st = true then _ else st) = _
          rw [if_pos hc]]
      have hbody := timeSplitBody_eq tsCol A L req runner st
        (runner.resp (buildSplitRequest tsCol req st.splitStart st.splitEnd
          (L - (st.overall.getD []).length + st.remainingOffset))).data rfl
      rw [hbody]
      by_cases hdone : (((st.overall.getD []) ++
          (runner.resp (buildSplitRequest tsCol req st.splitStart st.splitEnd
            (L - (st.overall.getD []).length + st.remainingOffset))).data).drop
          st.remainingOffset).length < L
      · rw [if_pos hdone]
        have hstep' : 1 ≤ nextStep st.splitStep L
            (((st.overall.getD []) ++
              (runner.resp (buildSplitRequest tsCol req st.splitStart
                st.splitEnd (L - (st.overall.getD []).length +
                  st.remainingOffset))).data).drop st.remainingOffset).length
            (runner.resp (buildSplitRequest tsCol req st.splitStart st.splitEnd
              (L - (st.overall.getD []).length +
                st.remainingOffset))).data.length :=
          nextStep_pos _ _ _ _ hstep hdone
        have hrec := ih
          { splitEnd := st.splitStart,
            splitStart := slideStart st.splitStart (nextStep st.splitStep L
              (((st.overall.getD []) ++
                (runner.resp (buildSplitRequest tsCol req st.splitStart
                  st.splitEnd (L - (st.overall.getD []).length +
                    st.remainingOffset))).data).drop st.remainingOffset).length
              (runner.resp (buildSplitRequest tsCol req st.splitStart
                st.splitEnd (L - (st.overall.getD []).length +
                  st.remainingOffset))).data.length) A,
            splitStep := nextStep st.splitStep L
              (((st.overall.getD []) ++
                (runner.resp (buildSplitRequest tsCol req st.splitStart
                  st.splitEnd (L - (st.overall.getD []).length +
                    st.remainingOffset))).data).drop st.remainingOffset).length
              (runner.resp (buildSplitRequest tsCol req st.splitStart
                st.splitEnd (L - (st.overall.getD []).length +
                  st.remainingOffset))).data.length,
            remainingOffset := st.remainingOffset -
              min st.remainingOffset ((st.overall.getD []) ++
                (runner.resp (buildSplitRequest tsCol req st.splitStart
                  st.splitEnd (L - (st.overall.getD []).length +
                    st.remainingOffset))).data).length,
            overall := some (((st.overall.getD []) ++
              (runner.resp (buildSplitRequest tsCol req st.splitStart
                st.splitEnd (L - (st.overall.getD []).length +
                  st.remainingOffset))).data).drop st.remainingOffset),
            trace := st.trace ++
              [{ subReq := buildSplitRequest tsCol req st.splitStart
                    st.splitEnd (L - (st.overall.getD []).length +
                      st.remainingOffset),
                 splitStart := st.splitStart, splitEnd := st.splitEnd,
                 splitStep := st.splitStep,
                 collectedBefore := (st.overall.getD []).length,
                 offsetBefore := st.remainingOffset,
                 returnedRows := (runner.resp (buildSplitRequest tsCol req
                   st.splitStart st.splitEnd (L - (st.overall.getD []).length +
                     st.remainingOffset))).data.length }] }
          (le_slideStart _ _ _)
          (by
            show slideStart st.splitStart _ A ≤ st.splitStart
            exact slideStart_le _ _ _ hA (by omega))
          hstep'
          (by
            show (st.splitStart - A).toNat + 1 ≤ f
            omega)
        refine ⟨hrec.1, ?_⟩
        have h2 := hrec.2
        simp only [List.length_append, List.length_cons, List.length_nil] at h2 ⊢
        omega
      · rw [if_neg hdone]
        have hcf2 : timeLoopCond L
            ({ splitEnd := st.splitEnd, splitStart := st.splitStart,
               splitStep := st.splitStep,
               remainingOffset := st.remainingOffset -
                 min st.remainingOffset ((st.overall.getD []) ++
                   (runner.resp (buildSplitRequest tsCol req st.splitStart
                     st.splitEnd (L - (st.overall.getD []).length +
                       st.remainingOffset))).data).length,
               overall := some (((st.overall.getD []) ++
                 (runner.resp (buildSplitRequest tsCol req st.splitStart
                   st.splitEnd (L - (st.overall.getD []).length +
                     st.remainingOffset))).data).drop st.remainingOffset),
               trace := st.trace ++
                 [{ subReq := buildSplitRequest tsCol req st.splitStart
                       st.splitEnd (L - (st.overall.getD []).length +
                         st.remainingOffset),
                    splitStart := st.splitStart, splitEnd := st.splitEnd,
                    splitStep := st.splitStep,
                    collectedBefore := (st.overall.getD []).length,
                    offsetBefore := st.remainingOffset,
                    returnedRows := (runner.resp (buildSplitRequest tsCol req
                      st.splitStart st.splitEnd
                      (L - (st.overall.getD []).length +
                        st.remainingOffset))).data.length }] } : TimeState)
            = false := by
          simp only [timeLoopCond, Bool.and_eq_false_iff]
          right
          simp only [Option.getD_some, decide_eq_false_iff_not, not_lt]
          omega
        rw [timeSplitLoopF_of_cond_false _ _ _ _ _ _ _ hcf2]
        refine ⟨hcf2, ?_⟩
        simp only [List.length_append, List.length_cons, List.length_nil]
        omega
    · have hcf : timeLoopCond L st = false := by
        cases h : timeLoopCond L st
        · rfl
        · exact absurd h hc
      rw [timeSplitLoopF_of_cond_false _ _ _ _ _ _ _ hcf]
      exact ⟨hcf, by omega⟩

/-- C6: for any `from_date < to_date`, `split_step ≥ 1` and positive limit,
and any runner, the time-split loop run with the fuel
`TimeSplitQueryStrategy.execute` supplies reaches a state where the loop
condition is false (the loop genuinely terminates), in at most
`(to_date - from_date).toNat` iterations. -/
theorem time_split_loop_terminates (tsCol : String) (req : Request)
    (runner : Runner) (A B step : Int) (L O : Nat)
    (hAB : A < B) (hstep : 1 ≤ step) (_hL : 0 < L) :
    timeLoopCond L (timeSplitLoopF tsCol A L req runner ((B - A).toNat + 1)
      { splitEnd := B, splitStart := max (B - step) A, splitStep := step,
        remainingOffset := O, overall := none, trace := [] }) = false ∧
    (timeSplitLoopF tsCol A L req runner ((B - A).toNat + 1)
      { splitEnd := B, splitStart := max (B - step) A, splitStep := step,
        remainingOffset := O, overall := none, trace := [] }).trace.length ≤
      (B - A).toNat := by
  have h := timeSplitLoopF_term tsCol A L req runner ((B - A).toNat + 1)
    { splitEnd := B, splitStart := max (B - step) A, splitStep := step,
      remainingOffset := O, overall := none, trace := [] }
    (le_max_right _ _)
    (by
      show max (B - step) A ≤ B
      exact max_le (by omega) (le_of_lt hAB))
    hstep (by simp)
  exact ⟨h.1, by simpa using h.2⟩

theorem time_split_loop_terminates_witness :
    ((0 : Int) < 5 ∧ (1 : Int) ≤ 1 ∧ 0 < 2) ∧
    timeLoopCond 2 (timeSplitLoopF "timestamp" 0 2 wReq wRunner
      (((5 : Int) - 0).toNat + 1)
      { splitEnd := 5, splitStart := max (5 - 1) 0, splitStep := 1,
        remainingOffset := 1, overall := none, trace := [] }) = false :=
  ⟨⟨by decide, by decide, by decide⟩,
    (time_split_loop_terminates "timestamp" wReq wRunner 0 5 1 2 1
      (by decide) (by decide) (by decide)).1⟩

/-! ## C7: the time-split precondition -/

/-- The spec-side description of the time-split precondition: feature flag
enabled, positive limit, no group-by, primary order `-timestamp` (the code
compares `orderby[:1]`, i.e. the first ordering key), both timestamp range
conditions present, and offset below 1000. -/
def timeSplitPrecondition (cfg : Config) (tsCol : String) (req : Request) :
    Prop :=
  0 < cfg.useSplit ∧ 0 < req.query.limit.getD 0 ∧ req.query.groupby = [] ∧
    req.query.orderby.take 1 = ["-" ++ tsCol] ∧
    hasCondition req.query tsCol ">=" = true ∧
    hasCondition req.query tsCol "<" = true ∧
    req.query.offset < 1000

/-- C7: `TimeSplitQueryStrategy.__can_execute` holds exactly when the
spec-side precondition does. -/
theorem time_split_precondition_characterization (tsCol : String)
    (cfg : Config) (req : Request) :
    TimeSplitQueryStrategy.canExecute ⟨tsCol⟩ cfg req = true ↔
      timeSplitPrecondition cfg tsCol req := by
  simp only [TimeSplitQueryStrategy.canExecute, isQuerySplittable,
    timeSplitPrecondition, Bool.and_eq_true, decide_eq_true_eq,
    List.isEmpty_iff, beq_iff_eq]
  tauto

/-! ## C8 and C9: shape of the sub-requests and of the window evolution -/

/-- The iteration record a loop iteration appends for state `st`. -/
def iterRecOf (tsCol : String) (limit : Nat) (req : Request) (runner : Runner)
    (st : TimeState) : IterRecord :=
  { subReq := buildSplitRequest tsCol req st.splitStart st.splitEnd
      (limit - (st.overall.getD []).length + st.remainingOffset),
    splitStart := st.splitStart, splitEnd := st.splitEnd,
    splitStep := st.splitStep,
    collectedBefore := (st.overall.getD []).length,
    offsetBefore := st.remainingOffset,
    returnedRows := (runner.resp (buildSplitRequest tsCol req st.splitStart
      st.splitEnd
      (limit - (st.overall.getD []).length + st.remainingOffset))).data.length }

theorem timeSplitBody_trace (tsCol : String) (A : Int) (limit : Nat)
    (req : Request) (runner : Runner) (st : TimeState) :
    (timeSplitBody tsCol A limit req runner st).trace =
      st.trace ++ [iterRecOf tsCol limit req runner st] := by
  rw [timeSplitBody_eq tsCol A limit req runner st
    (runner.resp (buildSplitRequest tsCol req st.splitStart st.splitEnd
      (limit - (st.overall.getD []).length + st.remainingOffset))).data rfl]
  split_ifs <;> rfl

/-- Every record appended by the loop has the sub-request shape of the claim:
`iterRecOf` built from the state at that iteration. -/
theorem timeSplitLoopF_trace_shape (tsCol : String) (A : Int) (L : Nat)
    (req : Request) (runner : Runner)
    (P : IterRecord → Prop)
    (hP : ∀ st : TimeState, P (iterRecOf tsCol L req runner st)) :
    ∀ (fuel : Nat) (st : TimeState), (∀ r ∈ st.trace, P r) →
      ∀ r ∈ (timeSplitLoopF tsCol A L req runner fuel st).trace, P r := by
  intro fuel
  induction fuel with
  | zero => intro st h; exact h
  | succ f ih =>
    intro st h
    by_cases hc : timeLoopCond L st = true
    · show ∀ r ∈ (if timeLoopCond L st = true then _ else st).trace, P r
      rw [if_pos hc]
      apply ih
      rw [timeSplitBody_trace]
      intro r hr
      rcases List.mem_append.mp hr with hr | hr
      · exact h r hr
      · rw [List.mem_singleton.mp hr]
        exact hP st
    · show ∀ r ∈ (if timeLoopCond L st = true then _ else st).trace, P r
      rw [if_neg hc]
      exact h

/-- C8: every sub-request issued by `TimeSplitQueryStrategy.execute` is the
deep copy of the original request with its timestamp bounds rewritten to
the iteration's `[split_start, split_end)`, offset set to 0 and limit set
to `original_limit - collected_so_far + remaining_offset`. -/
theorem time_split_subrequest_shape (tsCol : String) (cfg : Config)
    (req : Request) (runner : Runner) (r : IterRecord)
    (hr : r ∈ (TimeSplitQueryStrategy.execute ⟨tsCol⟩ cfg req runner).trace) :
    r.subReq = { req with query :=
      (((replaceCondition (replaceCondition req.query tsCol ">="
          (.time r.splitStart)) tsCol "<" (.time r.splitEnd)).setOffset
            0).setLimit
        (req.query.limit.getD 0 - r.collectedBefore + r.offsetBefore)) } := by
  revert hr
  unfold TimeSplitQueryStrategy.execute
  by_cases hce : TimeSplitQueryStrategy.canExecute ⟨tsCol⟩ cfg req = true
  · rw [if_neg (by rw [hce]; simp)]
    cases hto : findCondLit req.query tsCol "<" with
    | none => intro hr; simp at hr
    | some toLit =>
      cases hfrom : findCondLit req.query tsCol ">=" with
      | none => intro hr; simp at hr
      | some fromLit =>
        simp only []
        cases hpt : parseDatetimeLit cfg.dateAlignSeconds toLit with
        | none => intro hr; simp at hr
        | some toDate =>
          cases hpf : parseDatetimeLit cfg.dateAlignSeconds fromLit with
          | none => intro hr; simp at hr
          | some fromDate =>
            simp only []
            cases hsub : pyDatetimeSub toDate cfg.splitStep with
            | none => intro hr; simp at hr
            | some x =>
              intro hr
              have := timeSplitLoopF_trace_shape tsCol fromDate
                (req.query.limit.getD 0) req runner
                (fun r => r.subReq = { req with query :=
                  (((replaceCondition (replaceCondition req.query tsCol ">="
                      (.time r.splitStart)) tsCol "<"
                      (.time r.splitEnd)).setOffset 0).setLimit
                    (req.query.limit.getD 0 - r.collectedBefore +
                      r.offsetBefore)) })
                (fun st => rfl)
                ((toDate - fromDate).toNat + 1)
                { splitEnd := toDate,
                  splitStart := max x fromDate,
                  splitStep := cfg.splitStep,
                  remainingOffset := req.query.offset,
                  overall := none, trace := [] }
                (by intro r hr; simp at hr)
              exact this r hr
  · rw [if_pos (by
      cases h : TimeSplitQueryStrategy.canExecute ⟨tsCol⟩ cfg req
      · rfl
      · exact absurd h hce)]
    intro hr
    simp at hr

/-- The relation between two consecutive time-split iterations claimed by the
spec: the next window's step is `step * 10` after an empty round, otherwise
`step * ceil(remaining / returned)`; the window slides into the past with
`split_end' = split_start` and `split_start' = max(split_end' - step',
from_date)`, any datetime overflow clamped to `from_date` (`slideStart`). -/
def timeStepRel (A : Int) (L : Nat) (r1 r2 : IterRecord) : Prop :=
  r2.splitEnd = r1.splitStart ∧
    r2.splitStep = nextStep r1.splitStep L r2.collectedBefore r1.returnedRows ∧
    r2.splitStart = slideStart r2.splitEnd r2.splitStep A

instance (A : Int) (L : Nat) (r1 r2 : IterRecord) :
    Decidable (timeStepRel A L r1 r2) := by
  unfold timeStepRel
  infer_instance

/-- The link between the last recorded iteration and the current loop state:
the state's window was derived from that iteration by the growth rule. -/
def timeStepLink (A : Int) (L : Nat) (r1 : IterRecord) (st : TimeState) :
    Prop :=
  r1.splitStart = st.splitEnd ∧
    st.splitStep =
      nextStep r1.splitStep L (st.overall.getD []).length r1.returnedRows ∧
    st.splitStart = slideStart st.splitEnd st.splitStep A

theorem timeSplitLoopF_chain (tsCol : String) (A : Int) (L : Nat)
    (req : Request) (runner : Runner) :
    ∀ (fuel : Nat) (st : TimeState),
      List.Chain' (timeStepRel A L) st.trace →
      (timeLoopCond L st = true →
        ∀ r1, st.trace.getLast? = some r1 → timeStepLink A L r1 st) →
      List.Chain' (timeStepRel A L)
        (timeSplitLoopF tsCol A L req runner fuel st).trace := by
  intro fuel
  induction fuel with
  | zero => intro st h _; exact h
  | succ f ih =>
    intro st hchain hlink
    by_cases hc : timeLoopCond L st = true
    · rw [show timeSplitLoopF tsCol A L req runner (f + 1) st =
        timeSplitLoopF tsCol A L req runner f
          (timeSplitBody tsCol A L req runner st) from by
          show (if timeLoopCond L st = true then _ else st) = _
          rw [if_pos hc]]
      have hbody := timeSplitBody_eq tsCol A L req runner st
        (runner.resp (buildSplitRequest tsCol req st.splitStart st.splitEnd
          (L - (st.overall.getD []).length + st.remainingOffset))).data rfl
      apply ih
      · rw [timeSplitBody_trace]
        rw [List.chain'_append]
        refine ⟨hchain, List.chain'_singleton _, ?_⟩
        intro x hx y hy
        simp only [List.head?_cons, Option.mem_def, Option.some.injEq] at hy
        subst hy
        have hl := hlink hc x (by simpa using hx)
        exact ⟨hl.1.symm, hl.2.1, hl.2.2⟩
      · intro hcond' r1 hr1
        rw [timeSplitBody_trace] at hr1
        simp only [List.getLast?_append, List.getLast?_singleton] at hr1
        have hr1' : iterRecOf tsCol L req runner st = r1 := by
          have : (some (iterRecOf tsCol L req runner st)).or
              st.trace.getLast? = some (iterRecOf tsCol L req runner st) := rfl
          rw [this] at hr1
          exact Option.some.injEq .. |>.mp hr1
        subst hr1'
        rw [hbody] at hcond' ⊢
        by_cases hdone : (((st.overall.getD []) ++
            (runner.resp (buildSplitRequest tsCol req st.splitStart st.splitEnd
              (L - (st.overall.getD []).length +
                st.remainingOffset))).data).drop
            st.remainingOffset).length < L
        · rw [if_pos hdone]
          exact ⟨rfl, rfl, rfl⟩
        · rw [if_neg hdone] at hcond'
          exfalso
          simp only [timeLoopCond, Bool.and_eq_true, decide_eq_true_eq]
            at hcond'
          exact hdone (by simpa using hcond'.2)
    · show List.Chain' _ (if timeLoopCond L st = true then _ else st).trace
      rw [if_neg hc]
      exact hchain

/-- C9: consecutive iterations recorded by `TimeSplitQueryStrategy.execute`
are related by the window growth rule (`nextStep`) and the clamped slide
into the past (`slideStart`). -/
theorem time_split_window_evolution (tsCol : String) (cfg : Config)
    (req : Request) (runner : Runner) (A : Int)
    (halign : cfg.dateAlignSeconds = 1)
    (hfrom : findCondLit req.query tsCol ">=" = some (.time A)) :
    List.Chain' (timeStepRel A (req.query.limit.getD 0))
      (TimeSplitQueryStrategy.execute ⟨tsCol⟩ cfg req runner).trace := by
  unfold TimeSplitQueryStrategy.execute
  by_cases hce : TimeSplitQueryStrategy.canExecute ⟨tsCol⟩ cfg req = true
  · rw [if_neg (by rw [hce]; simp)]
    cases hto : findCondLit req.query tsCol "<" with
    | none => simp
    | some toLit =>
      rw [hfrom]
      simp only []
      cases hpt : parseDatetimeLit cfg.dateAlignSeconds toLit with
      | none => simp
      | some toDate =>
        rw [show parseDatetimeLit cfg.dateAlignSeconds (Lit.time A) =
          some A from by rw [halign]; simp [parseDatetimeLit, alignTs_one]]
        simp only []
        cases hsub : pyDatetimeSub toDate cfg.splitStep with
        | none => exact List.chain'_nil
        | some x =>
          apply timeSplitLoopF_chain
          · exact List.chain'_nil
          · intro _ r1 hr1
            simp at hr1
  · rw [if_pos (by
      cases h : TimeSplitQueryStrategy.canExecute ⟨tsCol⟩ cfg req
      · rfl
      · exact absurd h hce)]
    exact List.chain'_nil

theorem time_split_window_evolution_witness :
    (wCfg.dateAlignSeconds = 1 ∧
      findCondLit wReq.query "timestamp" ">=" = some (.time 0)) ∧
    List.Chain' (timeStepRel 0 (wReq.query.limit.getD 0))
      (TimeSplitQueryStrategy.execute ⟨"timestamp"⟩ wCfg wReq wRunner).trace :=
  ⟨⟨rfl, rfl⟩,
    time_split_window_evolution "timestamp" wCfg wReq wRunner 0 rfl rfl⟩

/-- The sub-query of the last witness iteration. -/
def wRecSubQuery : Query :=
  { selectedColumns := some ["event_id"],
    conditions := some [.flat "timestamp" ">=" (.time 0),
      .flat "timestamp" "<" (.time 2)],
    groupby := [], aggregations := [], orderby := ["-timestamp"],
    limit := some 1, offset := 0 }

/-- The last iteration record of the witness execution. -/
def wRec : IterRecord :=
  { subReq :=
      { query := wRecSubQuery, extFromDate := 0, extToDate := 5,
        extProject := [1] },
    splitStart := 0, splitEnd := 2, splitStep := 2,
    collectedBefore := 1, offsetBefore := 0, returnedRows := 1 }

theorem time_split_subrequest_shape_witness :
    wRec ∈ (TimeSplitQueryStrategy.execute ⟨"timestamp"⟩ wCfg wReq
      wRunner).trace ∧
    wRec.subReq = { wReq with query :=
      (((replaceCondition (replaceCondition wReq.query "timestamp" ">="
          (.time wRec.splitStart)) "timestamp" "<"
          (.time wRec.splitEnd)).setOffset 0).setLimit
        (wReq.query.limit.getD 0 - wRec.collectedBefore +
          wRec.offsetBefore)) } :=
  ⟨by decide,
    time_split_subrequest_shape "timestamp" wCfg wReq wRunner wRec (by decide)⟩

/-! ## C5: when `execute` returns `None` -/

def wColSpec : ColumnSplitQueryStrategy :=
  ⟨"event_id", "project_id", "timestamp"⟩

def wColQuery : Query :=
  { selectedColumns := some ["event_id", "project_id", "timestamp", "message"],
    conditions := some [.flat "project_id" "IN" (.ints [1, 2]),
      .flat "timestamp" ">=" (.time 0), .flat "timestamp" "<" (.time 10)],
    groupby := [], aggregations := [], orderby := [],
    limit := some 5, offset := 0 }

def wColReq : Request :=
  { query := wColQuery, extFromDate := 0, extToDate := 10,
    extProject := [1, 2] }

def wRowA : Row := ⟨5, 1, 3⟩

/-- A runner that finds nothing for the minimal projection but would return a
row for the original wide query, and that mutates the request it is handed. -/
def wColRunnerEmpty : Runner :=
  { resp := fun r =>
      if r.query.selectedColumns ==
          some ["event_id", "project_id", "timestamp"] then { data := [] }
      else { data := [wRowA] },
    mutate := fun r => { r with extProject := [99] } }

/-- C2 counterexample: when the first (minimal-projection) phase returns zero
rows, `ColumnSplitQueryStrategy.execute` does not return that empty result
after one runner call — it issues a second runner call with the original
request and returns whatever that call produces. -/
theorem col_split_empty_first_phase_two_calls :
    ColumnSplitQueryStrategy.canExecute wColSpec wCfg wColReq = true ∧
    (ColumnSplitQueryStrategy.execute wColSpec wCfg wColReq
      wColRunnerEmpty).calls.length = 2 ∧
    (ColumnSplitQueryStrategy.execute wColSpec wCfg wColReq
      wColRunnerEmpty).result = some { data := [wRowA] } := by
  refine ⟨by decide, by decide, by decide⟩

/-- C2 (amended): when the precondition holds and the first phase returns zero
rows, the column split issues exactly two runner calls — the minimal
request, then the *original, unmodified* request — and returns the second
call's response. -/
theorem col_split_empty_first_phase_behavior
    (spec : ColumnSplitQueryStrategy) (cfg : Config) (req : Request)
    (runner : Runner)
    (hce : spec.canExecute cfg req = true)
    (hdata : (runner.resp (minimalRequestOf spec req)).data = []) :
    (spec.execute cfg req runner).calls = [minimalRequestOf spec req, req] ∧
    (spec.execute cfg req runner).result = some (runner.resp req) := by
  simp only [ColumnSplitQueryStrategy.execute]
  rw [if_neg (by rw [hce]; simp)]
  rw [if_neg (by rw [hdata]; simp)]
  exact ⟨rfl, rfl⟩

theorem col_split_empty_first_phase_behavior_witness :
    (ColumnSplitQueryStrategy.canExecute wColSpec wCfg wColReq = true ∧
      (wColRunnerEmpty.resp (minimalRequestOf wColSpec wColReq)).data = []) ∧
    (ColumnSplitQueryStrategy.execute wColSpec wCfg wColReq
        wColRunnerEmpty).calls = [minimalRequestOf wColSpec wColReq, wColReq] :=
  ⟨⟨by decide, by decide⟩,
    (col_split_empty_first_phase_behavior wColSpec wCfg wColReq
      wColRunnerEmpty (by decide) (by decide)).1⟩

/-- C3 counterexample: a mutating runner changes the original `Request` object
when the column split's first phase comes back empty, because the final
`runner(request)` call receives the original object, not a copy. -/
theorem col_split_original_request_mutated :
    (ColumnSplitQueryStrategy.execute wColSpec wCfg wColReq
      wColRunnerEmpty).finalReq ≠ wColReq := by
  decide

/-- C3 (amended): the time split never hands the original request object to
the runner, so it survives any runner unchanged; the column split leaves
the original unchanged whenever the precondition fails or the first phase
returns rows, but hands the original object to the final runner call when
the first phase is empty. -/
theorem split_strategies_preserve_original (tsCol : String)
    (spec : ColumnSplitQueryStrategy) (cfg : Config) (reqT reqC : Request)
    (runnerT runnerC : Runner) :
    (TimeSplitQueryStrategy.execute ⟨tsCol⟩ cfg reqT runnerT).finalReq =
      reqT ∧
    ((runnerC.resp (minimalRequestOf spec reqC)).data ≠ [] →
      (spec.execute cfg reqC runnerC).finalReq = reqC) ∧
    (spec.canExecute cfg reqC = false →
      (spec.execute cfg reqC runnerC).finalReq = reqC) := by
  refine ⟨?_, ?_, ?_⟩
  · unfold TimeSplitQueryStrategy.execute
    by_cases hce : TimeSplitQueryStrategy.canExecute ⟨tsCol⟩ cfg reqT = true
    · rw [if_neg (by rw [hce]; simp)]
      cases findCondLit reqT.query tsCol "<" with
      | none => rfl
      | some toLit =>
        cases findCondLit reqT.query tsCol ">=" with
        | none => rfl
        | some fromLit =>
          simp only []
          cases parseDatetimeLit cfg.dateAlignSeconds toLit with
          | none => rfl
          | some toDate =>
            cases parseDatetimeLit cfg.dateAlignSeconds fromLit with
            | none => rfl
            | some fromDate =>
              simp only []
              cases pyDatetimeSub toDate cfg.splitStep with
              | none => rfl
              | some x => rfl
    · rw [if_pos (by
        cases h : TimeSplitQueryStrategy.canExecute ⟨tsCol⟩ cfg reqT
        · rfl
        · exact absurd h hce)]
  · intro hne
    simp only [ColumnSplitQueryStrategy.execute]
    by_cases hce : spec.canExecute cfg reqC = true
    · rw [if_neg (by rw [hce]; simp)]
      rw [if_pos (by
        cases hd : (runnerC.resp (minimalRequestOf spec reqC)).data with
        | nil => exact absurd hd hne
        | cons a l => rfl)]
    · rw [if_pos (by
        cases h : spec.canExecute cfg reqC
        · rfl
        · exact absurd h hce)]
  · intro hcf
    simp only [ColumnSplitQueryStrategy.execute]
    rw [if_pos (by rw [hcf]; rfl)]

/-- A runner whose minimal-projection phase returns rows. -/
def wColRunnerFull : Runner :=
  { resp := fun r =>
      if r.query.selectedColumns ==
          some ["event_id", "project_id", "timestamp"] then
        { data := [⟨5, 1, 3⟩, ⟨6, 2, 7⟩, ⟨5, 1, 4⟩] }
      else { data := [wRowA] },
    mutate := fun r => { r with extProject := [99] } }

theorem split_strategies_preserve_original_witness :
    ((wColRunnerFull.resp (minimalRequestOf wColSpec wColReq)).data ≠ []) ∧
    (TimeSplitQueryStrategy.execute ⟨"timestamp"⟩ wCfg wReq
      wRunner).finalReq = wReq ∧
    (ColumnSplitQueryStrategy.execute wColSpec wCfg wColReq
      wColRunnerFull).finalReq = wColReq := by
  have h := split_strategies_preserve_original "timestamp" wColSpec wCfg
    wReq wColReq wRunner wColRunnerFull
  exact ⟨by decide, h.1, h.2.1 (by decide)⟩

/-! ## C10: shape of the column split's second-phase request -/

theorem hasCondition_addConditions (q : Query) (cs : List Cond)
    (f o : String) (h : hasCondition q f o = true) :
    hasCondition (q.addConditions cs) f o = true := by
  unfold hasCondition at *
  show ((q.getConditions ++ cs).any fun c => identifyCondition c f o) = true
  rw [List.any_append, h]
  rfl

theorem mem_replaceCondition (q : Query) (c : Cond) (f o : String) (v : Lit)
    (hc : c ∈ q.getConditions) (hid : identifyCondition c f o = false) :
    c ∈ (replaceCondition q f o v).getConditions := by
  rw [getConditions_replaceCondition]
  refine List.mem_map.mpr ⟨c, hc, ?_⟩
  rw [hid]
  simp

/-- The rows the first phase returns. -/
def firstPhaseRows (spec : ColumnSplitQueryStrategy) (req : Request)
    (runner : Runner) : List Row :=
  (runner.resp (minimalRequestOf spec req)).data

/-- C10: when the first phase returns rows, the second phase runs a deep copy
of the original request with an added `id IN {distinct ids}` condition,
offset 0, limit = number of distinct ids, the project filter rewritten to
the distinct first-phase projects, and the timestamp range narrowed to
`[min ts, max ts + 1)`; all other request fields are unchanged. -/
theorem col_split_second_phase_shape (idCol projCol tsCol : String)
    (cfg : Config) (req : Request) (runner : Runner)
    (hce : ColumnSplitQueryStrategy.canExecute ⟨idCol, projCol, tsCol⟩ cfg
      req = true)
    (hne : firstPhaseRows ⟨idCol, projCol, tsCol⟩ req runner ≠ [])
    (hproj : hasCondition req.query projCol "IN" = true)
    (hge : hasCondition req.query tsCol ">=" = true)
    (hlt : hasCondition req.query tsCol "<" = true)
    (hip : idCol ≠ projCol) :
    (ColumnSplitQueryStrategy.execute ⟨idCol, projCol, tsCol⟩ cfg req
        runner).calls =
      [minimalRequestOf ⟨idCol, projCol, tsCol⟩ req,
        colSecondPhaseRequest ⟨idCol, projCol, tsCol⟩ req
          (firstPhaseRows ⟨idCol, projCol, tsCol⟩ req runner)] ∧
    (colSecondPhaseRequest ⟨idCol, projCol, tsCol⟩ req
        (firstPhaseRows ⟨idCol, projCol, tsCol⟩ req runner)).query.offset =
      0 ∧
    (colSecondPhaseRequest ⟨idCol, projCol, tsCol⟩ req
        (firstPhaseRows ⟨idCol, projCol, tsCol⟩ req runner)).query.limit =
      some (((firstPhaseRows ⟨idCol, projCol, tsCol⟩ req runner).map
        Row.eventId).dedup).length ∧
    (Cond.flat idCol "IN" (.ints (((firstPhaseRows ⟨idCol, projCol, tsCol⟩
        req runner).map Row.eventId).dedup))) ∈
      (colSecondPhaseRequest ⟨idCol, projCol, tsCol⟩ req
        (firstPhaseRows ⟨idCol, projCol, tsCol⟩ req runner)).query.getConditions ∧
    findCondLit (colSecondPhaseRequest ⟨idCol, projCol, tsCol⟩ req
        (firstPhaseRows ⟨idCol, projCol, tsCol⟩ req runner)).query projCol
        "IN" =
      some (.ints (((firstPhaseRows ⟨idCol, projCol, tsCol⟩ req runner).map
        Row.projectId).dedup)) ∧
    findCondLit (colSecondPhaseRequest ⟨idCol, projCol, tsCol⟩ req
        (firstPhaseRows ⟨idCol, projCol, tsCol⟩ req runner)).query tsCol
        ">=" =
      some (.time (((firstPhaseRows ⟨idCol, projCol, tsCol⟩ req runner).map
        Row.timestamp).min?.getD 0)) ∧
    findCondLit (colSecondPhaseRequest ⟨idCol, projCol, tsCol⟩ req
        (firstPhaseRows ⟨idCol, projCol, tsCol⟩ req runner)).query tsCol
        "<" =
      some (.time (((firstPhaseRows ⟨idCol, projCol, tsCol⟩ req runner).map
        Row.timestamp).max?.getD 0 + 1)) ∧
    (colSecondPhaseRequest ⟨idCol, projCol, tsCol⟩ req
        (firstPhaseRows ⟨idCol, projCol, tsCol⟩ req
          runner)).query.selectedColumns = req.query.selectedColumns ∧
    (colSecondPhaseRequest ⟨idCol, projCol, tsCol⟩ req
        (firstPhaseRows ⟨idCol, projCol, tsCol⟩ req runner)).query.groupby =
      req.query.groupby ∧
    (colSecondPhaseRequest ⟨idCol, projCol, tsCol⟩ req
        (firstPhaseRows ⟨idCol, projCol, tsCol⟩ req runner)).query.orderby =
      req.query.orderby ∧
    (colSecondPhaseRequest ⟨idCol, projCol, tsCol⟩ req
        (firstPhaseRows ⟨idCol, projCol, tsCol⟩ req runner)).extFromDate =
      req.extFromDate ∧
    (colSecondPhaseRequest ⟨idCol, projCol, tsCol⟩ req
        (firstPhaseRows ⟨idCol, projCol, tsCol⟩ req runner)).extToDate =
      req.extToDate ∧
    (colSecondPhaseRequest ⟨idCol, projCol, tsCol⟩ req
        (firstPhaseRows ⟨idCol, projCol, tsCol⟩ req runner)).extProject =
      req.extProject := by
  have hq1 : ∀ f o, hasCondition req.query f o = true →
      hasCondition ((((req.query.addConditions
        [.flat idCol "IN" (.ints (((firstPhaseRows ⟨idCol, projCol, tsCol⟩
          req runner).map Row.eventId).dedup))]).setOffset 0).setLimit
        (((firstPhaseRows ⟨idCol, projCol, tsCol⟩ req runner).map
          Row.eventId).dedup).length)) f o = true := by
    intro f o h
    exact hasCondition_addConditions req.query _ f o h
  refine ⟨?_, rfl, rfl, ?_, ?_, ?_, ?_, rfl, rfl, rfl, rfl, rfl, rfl⟩
  · simp only [ColumnSplitQueryStrategy.execute]
    rw [if_neg (by rw [hce]; simp)]
    rw [if_pos (by
      cases hd : (runner.resp (minimalRequestOf ⟨idCol, projCol, tsCol⟩
          req)).data with
      | nil => exact absurd hd hne
      | cons a l => rfl)]
    rfl
  · -- the added id IN condition survives the three rewrites
    simp only [colSecondPhaseRequest]
    apply mem_replaceCondition
    · apply mem_replaceCondition
      · apply mem_replaceCondition
        · show _ ∈ req.query.getConditions ++ [_]
          exact List.mem_append_right _ (List.mem_singleton.mpr rfl)
        · rw [identifyCondition_flat]
          simp [hip]
      · rw [identifyCondition_flat]
        simp
    · rw [identifyCondition_flat]
      simp
  · -- project filter rewritten to the distinct project ids
    simp only [colSecondPhaseRequest]
    rw [findCondLit_replaceCondition_other _ _ _ _ _ _
        (by rintro ⟨_, h⟩; exact absurd h (by decide)),
      findCondLit_replaceCondition_other _ _ _ _ _ _
        (by rintro ⟨_, h⟩; exact absurd h (by decide)),
      findCondLit_replaceCondition_same _ _ _ _ (hq1 _ _ hproj)]
  · -- timestamp lower bound narrowed to the minimum
    simp only [colSecondPhaseRequest]
    rw [findCondLit_replaceCondition_other _ _ _ _ _ _
        (by rintro ⟨_, h⟩; exact absurd h (by decide)),
      findCondLit_replaceCondition_same _ _ _ _ (by
        rw [hasCondition_replaceCondition]
        exact hq1 _ _ hge)]
  · -- timestamp upper bound narrowed to the maximum plus one second
    simp only [colSecondPhaseRequest]
    rw [findCondLit_replaceCondition_same _ _ _ _ (by
      rw [hasCondition_replaceCondition, hasCondition_replaceCondition]
      exact hq1 _ _ hlt)]

theorem col_split_second_phase_shape_witness :
    (ColumnSplitQueryStrategy.canExecute wColSpec wCfg wColReq = true ∧
      firstPhaseRows wColSpec wColReq wColRunnerFull ≠ []) ∧
    (ColumnSplitQueryStrategy.execute wColSpec wCfg wColReq
        wColRunnerFull).calls =
      [minimalRequestOf wColSpec wColReq,
        colSecondPhaseRequest wColSpec wColReq
          (firstPhaseRows wColSpec wColReq wColRunnerFull)] ∧
    findCondLit (colSecondPhaseRequest wColSpec wColReq
        (firstPhaseRows wColSpec wColReq wColRunnerFull)).query "project_id"
        "IN" =
      some (.ints (((firstPhaseRows wColSpec wColReq wColRunnerFull).map
        Row.projectId).dedup)) ∧
    findCondLit (colSecondPhaseRequest wColSpec wColReq
        (firstPhaseRows wColSpec wColReq wColRunnerFull)).query "timestamp"
        "<" =
      some (.time (((firstPhaseRows wColSpec wColReq wColRunnerFull).map
        Row.timestamp).max?.getD 0 + 1)) := by
  have h := col_split_second_phase_shape "event_id" "project_id" "timestamp"
    wCfg wColReq wColRunnerFull (by decide) (by decide) (by decide)
    (by decide) (by decide) (by decide)
  exact ⟨⟨by decide, by decide⟩, h.1, h.2.2.2.2.1, h.2.2.2.2.2.2.1⟩

/-! ## C4: mirroring the rewritten range into the timeseries extension -/

/-- The sub-request built by one iteration of
`SplitQueryPlanExecutionStrategy.__time_split`: the timeseries extension is
rewritten to the window and matching conditions on the hard-coded
`timestamp` column are appended. -/
def plansSubRequestOf (limit : Nat) (req : Request) (st : TimeState) :
    Request :=
  { req with
    query := ((req.query.addConditions
      [.flat "timestamp" ">=" (.time st.splitStart),
       .flat "timestamp" "<" (.time st.splitEnd)]).setOffset 0).setLimit
      (limit - (st.overall.getD []).length + st.remainingOffset),
    extFromDate := st.splitStart, extToDate := st.splitEnd }

/-- The iteration record one `__time_split` iteration appends. -/
def plansIterRecOf (limit : Nat) (req : Request) (runner : Runner)
    (st : TimeState) : IterRecord :=
  { subReq := plansSubRequestOf limit req st,
    splitStart := st.splitStart, splitEnd := st.splitEnd,
    splitStep := st.splitStep,
    collectedBefore := (st.overall.getD []).length,
    offsetBefore := st.remainingOffset,
    returnedRows := (runner.resp (plansSubRequestOf limit req st)).data.length }

theorem plansTimeSplitBody_trace (fromDate : Int) (limit : Nat)
    (req : Request) (runner : Runner) (st : TimeState) :
    (plansTimeSplitBody fromDate limit req runner st).trace =
      st.trace ++ [plansIterRecOf limit req runner st] := by
  simp only [plansTimeSplitBody]
  split_ifs <;> rfl

theorem plansTimeSplitLoopF_trace_shape (fromDate : Int) (limit : Nat)
    (req : Request) (runner : Runner) (P : IterRecord → Prop)
    (hP : ∀ st : TimeState, P (plansIterRecOf limit req runner st)) :
    ∀ (fuel : Nat) (st : TimeState), (∀ r ∈ st.trace, P r) →
      ∀ r ∈ (plansTimeSplitLoopF fromDate limit req runner fuel st).trace,
        P r := by
  intro fuel
  induction fuel with
  | zero => intro st h; exact h
  | succ f ih =>
    intro st h
    by_cases hc : timeLoopCond limit st = true
    · show ∀ r ∈ (if timeLoopCond limit st = true then _ else st).trace, P r
      rw [if_pos hc]
      apply ih
      rw [plansTimeSplitBody_trace]
      intro r hr
      rcases List.mem_append.mp hr with hr | hr
      · exact h r hr
      · rw [List.mem_singleton.mp hr]
        exact hP st
    · show ∀ r ∈ (if timeLoopCond limit st = true then _ else st).trace, P r
      rw [if_neg hc]
      exact h

/-- C4 counterexample: a sub-request issued by `TimeSplitQueryStrategy` whose
upper timestamp condition was rewritten to 2 while its timeseries extension
still carries the original `to_date = 5` — conditions and extension do not
agree. -/
theorem time_split_extension_not_mirrored :
    wRec ∈ (TimeSplitQueryStrategy.execute ⟨"timestamp"⟩ wCfg wReq
      wRunner).trace ∧
    findCondLit wRec.subReq.query "timestamp" "<" = some (.time 2) ∧
    wRec.subReq.extToDate = 5 ∧ ¬((5 : Int) = 2) := by
  refine ⟨by decide, by decide, by decide, by decide⟩

/-- C4 (amended): only `SplitQueryPlanExecutionStrategy.__time_split`
(`snuba/datasets/plans/split.py`) mirrors the rewritten range into the
`timeseries` extension — each of its sub-requests carries
`from_date = split_start`, `to_date = split_end` together with the matching
appended timestamp conditions. `TimeSplitQueryStrategy`
(`snuba/web/split.py`) rewrites only the query conditions and leaves every
sub-request's timeseries extension at the original request's values. -/
theorem timeseries_extension_mirroring (tsCol : String) (cfg : Config)
    (reqW reqP : Request) (runnerW runnerP : Runner) :
    (∀ r ∈ (TimeSplitQueryStrategy.execute ⟨tsCol⟩ cfg reqW runnerW).trace,
      r.subReq.extFromDate = reqW.extFromDate ∧
        r.subReq.extToDate = reqW.extToDate) ∧
    (∀ r ∈ (plansTimeSplit cfg reqP runnerP).trace,
      r.subReq.extFromDate = r.splitStart ∧
        r.subReq.extToDate = r.splitEnd ∧
        (Cond.flat "timestamp" ">=" (.time r.splitStart)) ∈
          r.subReq.query.getConditions ∧
        (Cond.flat "timestamp" "<" (.time r.splitEnd)) ∈
          r.subReq.query.getConditions) := by
  constructor
  · unfold TimeSplitQueryStrategy.execute
    by_cases hce : TimeSplitQueryStrategy.canExecute ⟨tsCol⟩ cfg reqW = true
    · rw [if_neg (by rw [hce]; simp)]
      cases findCondLit reqW.query tsCol "<" with
      | none => intro r hr; simp at hr
      | some toLit =>
        cases findCondLit reqW.query tsCol ">=" with
        | none => intro r hr; simp at hr
        | some fromLit =>
          simp only []
          cases parseDatetimeLit cfg.dateAlignSeconds toLit with
          | none => intro r hr; simp at hr
          | some toDate =>
            cases parseDatetimeLit cfg.dateAlignSeconds fromLit with
            | none => intro r hr; simp at hr
            | some fromDate =>
              simp only []
              cases pyDatetimeSub toDate cfg.splitStep with
              | none => intro r hr; simp at hr
              | some x =>
                exact timeSplitLoopF_trace_shape tsCol fromDate
                  (reqW.query.limit.getD 0) reqW runnerW
                  (fun r => r.subReq.extFromDate = reqW.extFromDate ∧
                    r.subReq.extToDate = reqW.extToDate)
                  (fun st => ⟨rfl, rfl⟩) _ _ (by intro r hr; simp at hr)
    · rw [if_pos (by
        cases h : TimeSplitQueryStrategy.canExecute ⟨tsCol⟩ cfg reqW
        · rfl
        · exact absurd h hce)]
      intro r hr
      simp at hr
  · unfold plansTimeSplit
    simp only []
    cases pyDatetimeSub (alignTs cfg.dateAlignSeconds reqP.extToDate)
        cfg.splitStep with
    | none => intro r hr; simp at hr
    | some x =>
      apply plansTimeSplitLoopF_trace_shape
      · intro st
        refine ⟨rfl, rfl, ?_, ?_⟩
        · show _ ∈ reqP.query.getConditions ++ [_, _]
          refine List.mem_append_right _ ?_
          exact List.mem_cons_self _ _
        · show _ ∈ reqP.query.getConditions ++ [_, _]
          refine List.mem_append_right _ ?_
          exact List.mem_cons_of_mem _ (List.mem_singleton.mpr rfl)
      · intro r hr
        simp at hr

def wPlansRecQuery : Query :=
  { selectedColumns := some ["event_id"],
    conditions := some [.flat "timestamp" ">=" (.time 0),
      .flat "timestamp" "<" (.time 5), .flat "timestamp" ">=" (.time 4),
      .flat "timestamp" "<" (.time 5)],
    groupby := [], aggregations := [], orderby := ["-timestamp"],
    limit := some 3, offset := 0 }

def wPlansRec : IterRecord :=
  { subReq :=
      { query := wPlansRecQuery, extFromDate := 4, extToDate := 5,
        extProject := [1] },
    splitStart := 4, splitEnd := 5, splitStep := 1,
    collectedBefore := 0, offsetBefore := 1, returnedRows := 3 }

theorem timeseries_extension_mirroring_witness :
    (wRec ∈ (TimeSplitQueryStrategy.execute ⟨"timestamp"⟩ wCfg wReq
        wRunner).trace ∧
      wPlansRec ∈ (plansTimeSplit wCfg wReq wRunner).trace) ∧
    (wRec.subReq.extFromDate = wReq.extFromDate ∧
      wRec.subReq.extToDate = wReq.extToDate) ∧
    (wPlansRec.subReq.extFromDate = wPlansRec.splitStart ∧
      wPlansRec.subReq.extToDate = wPlansRec.splitEnd) := by
  have h := timeseries_extension_mirroring "timestamp" wCfg wReq wReq
    wRunner wRunner
  refine ⟨⟨by decide, by decide⟩, h.1 wRec (by decide), ?_⟩
  have h2 := h.2 wPlansRec (by decide)
  exact ⟨h2.1, h2.2.1⟩
